import Mathlib

/-!
A shallow embedding of the backtest simulation engine of the
SystematicTrader repository (the `POST` handler of
`web/app/api/backtest/route.ts`, self-contained variant), together with
proofs settling the specification's claims about it.

Conventions of the embedding:
* JavaScript numbers are modelled as exact rationals (`ℚ`); the
  `parseFloat(x.toFixed(2))` display rounding is modelled by `round2`.
* The Price Series Provider is an external collaborator (spec §1); the
  driver is therefore parameterised by `data : String → List Bar`, the
  per-instrument price series. The synthetic generator of the source is
  one particular such provider.
* The JavaScript `positions` object (string-keyed record, insertion
  ordered for non-numeric ticker keys) is modelled as an association
  list: assignment of an absent key appends, `delete` removes the entry.
* `trades`, `portfolioValues` and `timestamps` are lists grown at the
  right end, mirroring `Array.push`.
-/

namespace SystematicTrader

/-- Trade side, `Decision` in `types/trading.ts`. -/
inductive Decision where
  | BUY
  | SELL
deriving DecidableEq, Repr

/-- `ChangeType` in `types/trading.ts`. -/
inductive ChangeType where
  | price_increase
  | price_decrease
  | volume_increase
  | volume_decrease
deriving DecidableEq, Repr

/-- `TradingRule` in `types/trading.ts` (the fields the engine reads). -/
structure TradingRule where
  name : String
  changeType : ChangeType
  changePercent : ℚ
  decision : Decision
  quantity : ℚ
  enabled : Bool
deriving DecidableEq, Repr

/-- One `(timestamp, price, volume)` sample of a price series. -/
structure Bar where
  timestamp : String
  price : ℚ
  volume : ℚ
deriving DecidableEq, Repr

/-- `Position` in `route.ts`. -/
structure Position where
  entryPrice : ℚ
  quantity : ℚ
  entryTimestamp : String
deriving DecidableEq, Repr

/-- `Trade` in `types/trading.ts`; `pnl` is set only on SELL trades. -/
structure Trade where
  id : String
  timestamp : String
  stock : String
  decision : Decision
  price : ℚ
  quantity : ℚ
  ruleTriggered : String
  pnl : Option ℚ
deriving DecidableEq, Repr

/-- `BacktestConfig` in `types/trading.ts`. -/
structure BacktestConfig where
  stocks : List String
  startDate : String
  endDate : String
  initialCapital : ℚ
  rules : List TradingRule
deriving DecidableEq, Repr

/-- `BacktestResult` in `types/trading.ts`. -/
structure BacktestResult where
  totalTrades : Nat
  winningTrades : Nat
  losingTrades : Nat
  totalPnL : ℚ
  percentReturn : ℚ
  maxDrawdown : ℚ
  trades : List Trade
  portfolioValue : List ℚ
  timestamps : List String
deriving DecidableEq, Repr

/-- Lookup in the JavaScript `positions` record: `positions[stock]`. -/
def lookupPos : List (String × Position) → String → Option Position
  | [], _ => none
  | (s, p) :: rest, k => if s = k then some p else lookupPos rest k

/-- `delete positions[stock]`: removes the (unique) entry for the key. -/
def erasePos : List (String × Position) → String → List (String × Position)
  | [], _ => []
  | (s, p) :: rest, k => if s = k then rest else (s, p) :: erasePos rest k

/-- Mutable state of the simulation loop in `POST`. -/
structure SimState where
  cash : ℚ
  positions : List (String × Position)
  trades : List Trade
  portfolioValues : List ℚ
  timestamps : List String
deriving DecidableEq, Repr

/-- The BUY-rule trigger test (`switch (rule.changeType)` in the BUY block,
lines 150–163 of the route). -/
def buyTriggered (r : TradingRule) (priceChange volumeChange : ℚ) : Bool :=
  match r.changeType with
  | .price_increase => decide (priceChange ≥ r.changePercent)
  | .price_decrease => decide (priceChange ≤ -r.changePercent)
  | .volume_increase => decide (volumeChange ≥ r.changePercent)
  | .volume_decrease => decide (volumeChange ≤ -r.changePercent)

/-- The SELL-rule trigger test (`switch (rule.changeType)` in the SELL
block, lines 198–213): price-metric cases compare the position P&L
percent, volume-metric cases compare the bar-over-bar volume change. -/
def sellTriggered (r : TradingRule) (positionPnLPercent volumeChange : ℚ) : Bool :=
  match r.changeType with
  | .price_increase => decide (positionPnLPercent ≥ r.changePercent)
  | .price_decrease => decide (positionPnLPercent ≤ -r.changePercent)
  | .volume_increase => decide (volumeChange ≥ r.changePercent)
  | .volume_decrease => decide (volumeChange ≤ -r.changePercent)

/-- The BUY-rule scan (`for (const rule of buyRules) { ... }`, lines
147–187): a triggered rule whose cost is affordable executes and breaks;
a triggered but unaffordable rule falls through to the next rule. -/
def scanBuy (cash price priceChange volumeChange : ℚ) :
    List TradingRule → Option TradingRule
  | [] => none
  | r :: rest =>
    if buyTriggered r priceChange volumeChange then
      if cash ≥ price * r.quantity then some r
      else scanBuy cash price priceChange volumeChange rest
    else scanBuy cash price priceChange volumeChange rest

/-- Effect of an executed BUY (lines 165–185): cash decreases by the
cost, a position is created, a BUY trade is recorded. -/
def execBuy (stock : String) (i : Nat) (current : Bar) (r : TradingRule)
    (st : SimState) : SimState :=
  { st with
    cash := st.cash - current.price * r.quantity
    positions := st.positions ++ [(stock,
      { entryPrice := current.price
        quantity := r.quantity
        entryTimestamp := current.timestamp })]
    trades := st.trades ++ [{
      id := "trade-" ++ toString i ++ "-" ++ stock ++ "-buy"
      timestamp := current.timestamp
      stock := stock
      decision := .BUY
      price := current.price
      quantity := r.quantity
      ruleTriggered := r.name
      pnl := none }] }

/-- Effect of an executed SELL (lines 215–233): cash increases by the
revenue, the position is deleted, a SELL trade with P&L is recorded. -/
def execSell (stock : String) (i : Nat) (current : Bar) (r : TradingRule)
    (pos : Position) (st : SimState) : SimState :=
  { st with
    cash := st.cash + current.price * pos.quantity
    positions := erasePos st.positions stock
    trades := st.trades ++ [{
      id := "trade-" ++ toString i ++ "-" ++ stock ++ "-sell"
      timestamp := current.timestamp
      stock := stock
      decision := .SELL
      price := current.price
      quantity := pos.quantity
      ruleTriggered := r.name
      pnl := some ((current.price - pos.entryPrice) * pos.quantity) }] }

/-- The BUY block of one stock step (`if (!position) { ... }`). -/
def buyPhase (buyRules : List TradingRule) (stock : String) (i : Nat)
    (current : Bar) (priceChange volumeChange : ℚ) (st : SimState) : SimState :=
  match lookupPos st.positions stock with
  | some _ => st
  | none =>
    match scanBuy st.cash current.price priceChange volumeChange buyRules with
    | some r => execBuy stock i current r st
    | none => st

/-- The SELL block of one stock step (`if (positions[stock]) { ... }`);
note the position is re-read after the BUY block, while
`positionPnLPercent` was computed from the position as of the start of
the step. -/
def sellPhase (sellRules : List TradingRule) (stock : String) (i : Nat)
    (current : Bar) (positionPnLPercent volumeChange : ℚ) (st : SimState) : SimState :=
  match lookupPos st.positions stock with
  | none => st
  | some pos =>
    match sellRules.find? (fun r => sellTriggered r positionPnLPercent volumeChange) with
    | some r => execSell stock i current r pos st
    | none => st

/-- Processing of one stock at time step `i` (the body of
`for (const stock of stocks)`, lines 127–236). A stock whose series is
exhausted is skipped (`if (i >= priceData.length) continue`). -/
def stepStock (buyRules sellRules : List TradingRule) (data : String → List Bar)
    (i : Nat) (st : SimState) (stock : String) : SimState :=
  match (data stock)[i]?, (data stock)[i - 1]? with
  | some current, some previous =>
    let priceChange := (current.price - previous.price) / previous.price * 100
    let volumeChange := (current.volume - previous.volume) / previous.volume * 100
    let positionPnLPercent :=
      match lookupPos st.positions stock with
      | some p => (current.price - p.entryPrice) / p.entryPrice * 100
      | none => 0
    sellPhase sellRules stock i current positionPnLPercent volumeChange
      (buyPhase buyRules stock i current priceChange volumeChange st)
  | _, _ => st

/-- Mark price used for portfolio valuation at step `i`:
`priceData[Math.min(i, priceData.length - 1)]?.price || 0`. -/
def markPrice (data : String → List Bar) (i : Nat) (s : String) : ℚ :=
  match (data s)[min i ((data s).length - 1)]? with
  | some b => b.price
  | none => 0

/-- The portfolio valuation loop (lines 240–245): starts from cash and
adds `currentPrice * pos.quantity` for each open position. -/
def portfolioValueAt (data : String → List Bar) (i : Nat) (st : SimState) : ℚ :=
  st.positions.foldl (fun acc sp => acc + markPrice data i sp.1 * sp.2.quantity) st.cash

/-- Timestamp recorded with a portfolio sample (line 247); the empty
string is JavaScript-falsy and falls back to `endDate`. -/
def sampleTimestamp (data : String → List Bar) (stocks : List String)
    (endDate : String) (i : Nat) : String :=
  match stocks with
  | [] => endDate
  | s0 :: _ =>
    match (data s0)[min i ((data s0).length - 1)]? with
    | some b => if b.timestamp = "" then endDate else b.timestamp
    | none => endDate

/-- Periodic equity sampling (lines 238–248). -/
def sampleStep (stocks : List String) (data : String → List Bar) (maxLen : Nat)
    (endDate : String) (i : Nat) (st : SimState) : SimState :=
  if i % max 1 (maxLen / 100) = 0 then
    { st with
      portfolioValues := st.portfolioValues ++ [portfolioValueAt data i st]
      timestamps := st.timestamps ++ [sampleTimestamp data stocks endDate i] }
  else st

/-- One iteration of the outer time loop (lines 126–249). -/
def stepBar (stocks : List String) (buyRules sellRules : List TradingRule)
    (data : String → List Bar) (maxLen : Nat) (endDate : String)
    (i : Nat) (st : SimState) : SimState :=
  sampleStep stocks data maxLen endDate i
    (stocks.foldl (stepStock buyRules sellRules data i) st)

/-- Final liquidation price for one open position (line 254): the last
sample's price, falling back to the entry price when it is absent or
JavaScript-falsy (exactly `0`). -/
def finalPriceOf (data : String → List Bar) (sp : String × Position) : ℚ :=
  match (data sp.1)[(data sp.1).length - 1]? with
  | some b => if b.price = 0 then sp.2.entryPrice else b.price
  | none => sp.2.entryPrice

/-- The forced-liquidation Trade recorded for one open position
(lines 258–267). -/
def liqTrade (data : String → List Bar) (endDate : String)
    (sp : String × Position) : Trade :=
  { id := "trade-final-" ++ sp.1
    timestamp := endDate
    stock := sp.1
    decision := .SELL
    price := finalPriceOf data sp
    quantity := sp.2.quantity
    ruleTriggered := "End of Backtest"
    pnl := some ((finalPriceOf data sp - sp.2.entryPrice) * sp.2.quantity) }

/-- Forced liquidation of one open position (lines 252–268). The
`positions` record itself is not mutated by this loop in the source. -/
def liquidateOne (data : String → List Bar) (endDate : String)
    (st : SimState) (sp : String × Position) : SimState :=
  { st with
    cash := st.cash + finalPriceOf data sp * sp.2.quantity
    trades := st.trades ++ [liqTrade data endDate sp] }

/-- Liquidation over a list of position entries. -/
def liqGo (data : String → List Bar) (endDate : String)
    (l : List (String × Position)) (st : SimState) : SimState :=
  l.foldl (liquidateOne data endDate) st

/-- "Close any remaining positions at end": iterates the entries of the
`positions` record in insertion order. -/
def liquidate (data : String → List Bar) (endDate : String) (st : SimState) : SimState :=
  liqGo data endDate st.positions st

/-- The enabled rules with the given side (`buyRules` / `sellRules`). -/
def rulesFor (d : Decision) (rules : List TradingRule) : List TradingRule :=
  (rules.filter (·.enabled)).filter (fun r => decide (r.decision = d))

/-- Length of the longest configured price series (`maxDataLength`). -/
def maxDataLength (stocks : List String) (data : String → List Bar) : Nat :=
  (stocks.map (fun s => (data s).length)).foldl max 0

/-- Initial simulation state (lines 108–112). -/
def initState (cfg : BacktestConfig) : SimState :=
  { cash := cfg.initialCapital
    positions := []
    trades := []
    portfolioValues := [cfg.initialCapital]
    timestamps := [cfg.startDate] }

/-- The whole time loop, `for (let i = 1; i < maxDataLength; i++)`. -/
def runLoop (cfg : BacktestConfig) (data : String → List Bar) : SimState :=
  (List.range' 1 (maxDataLength cfg.stocks data - 1)).foldl
    (fun st i =>
      stepBar cfg.stocks (rulesFor .BUY cfg.rules) (rulesFor .SELL cfg.rules)
        data (maxDataLength cfg.stocks data) cfg.endDate i st)
    (initState cfg)

/-- Loop followed by forced end-of-run liquidation. -/
def runSim (cfg : BacktestConfig) (data : String → List Bar) : SimState :=
  liquidate data cfg.endDate (runLoop cfg data)

/-- `parseFloat(x.toFixed(2))` modelled in exact arithmetic: round to the
nearest hundredth, half away from zero rounding up. -/
def round2 (q : ℚ) : ℚ := ((⌊q * 100 + 1 / 2⌋ : ℤ) : ℚ) / 100

/-- `trades.filter((t) => t.decision === 'SELL' && t.pnl !== undefined)`. -/
def sellTradesOf (ts : List Trade) : List Trade :=
  ts.filter (fun t => decide (t.decision = .SELL) && t.pnl.isSome)

/-- `sellTrades.reduce((sum, t) => sum + (t.pnl || 0), 0)`. -/
def sumPnl (ts : List Trade) : ℚ :=
  (sellTradesOf ts).foldl (fun acc t => acc + t.pnl.getD 0) 0

/-- One step of the max-drawdown fold: carries `(peak, maxDrawdown)`. -/
def ddStep (pd : ℚ × ℚ) (v : ℚ) : ℚ × ℚ :=
  let peak := if v > pd.1 then v else pd.1
  let dd := (peak - v) / peak * 100
  (peak, if dd > pd.2 then dd else pd.2)

/-- The max-drawdown loop of lines 277–284: peak starts at the initial
capital, drawdown at each point is `(peak − value)/peak × 100`. -/
def maxDrawdownOf (initialCapital : ℚ) (vals : List ℚ) : ℚ :=
  (vals.foldl ddStep (initialCapital, 0)).2

/-- The metrics block and result assembly (lines 270–299). -/
def mkResult (cfg : BacktestConfig) (stF : SimState) : BacktestResult :=
  let sellTrades := sellTradesOf stF.trades
  let winningTrades := (sellTrades.filter (fun t => decide (0 < t.pnl.getD 0))).length
  let losingTrades := (sellTrades.filter (fun t => decide (t.pnl.getD 0 < 0))).length
  let totalPnL := sumPnl stF.trades
  let percentReturn := (stF.cash - cfg.initialCapital) / cfg.initialCapital * 100
  let maxDrawdown := maxDrawdownOf cfg.initialCapital stF.portfolioValues
  { totalTrades := stF.trades.length
    winningTrades := winningTrades
    losingTrades := losingTrades
    totalPnL := round2 totalPnL
    percentReturn := round2 percentReturn
    maxDrawdown := round2 maxDrawdown
    trades := stF.trades
    portfolioValue := stF.portfolioValues ++ [stF.cash]
    timestamps := stF.timestamps ++ [cfg.endDate] }

/-- The full simulation of one request body, after validation. -/
def runBacktest (cfg : BacktestConfig) (data : String → List Bar) : BacktestResult :=
  mkResult cfg (runSim cfg data)

/-- The `POST` handler: input validation (lines 89–102) followed by the
simulation; the price series provider is the external collaborator. -/
def post (cfg : BacktestConfig) (data : String → List Bar) :
    Except String BacktestResult :=
  if cfg.stocks.isEmpty || cfg.rules.isEmpty then
    .error "Please select at least one stock and add at least one rule"
  else if (cfg.rules.filter (·.enabled)).isEmpty then
    .error "Please enable at least one rule"
  else
    .ok (runBacktest cfg data)

/-! ### Derived notions used to state the claims -/

/-- The trades of one instrument, in log order. -/
def tradesFor (s : String) (ts : List Trade) : List Trade :=
  ts.filter (fun t => decide (t.stock = s))

/-- The BUY/SELL decisions of one instrument's trades, in log order. -/
def decisionsFor (s : String) (ts : List Trade) : List Decision :=
  (tradesFor s ts).map (·.decision)

/-- Strict alternation starting with a BUY: the `k`-th trade of an
instrument is a BUY for even `k` and a SELL for odd `k`. -/
def StrictAlt (l : List Decision) : Prop :=
  ∀ k, k < l.length → l[k]? = some (if k % 2 = 0 then Decision.BUY else Decision.SELL)

/-- Replay of the cash ledger over a trade log: a BUY costs
`price × quantity`, a SELL pays `price × quantity`. -/
def replayCash (init : ℚ) (ts : List Trade) : ℚ :=
  ts.foldl
    (fun c t =>
      match t.decision with
      | .BUY => c - t.price * t.quantity
      | .SELL => c + t.price * t.quantity)
    init

/-- Independent equity reconstruction at step `i`: cash plus the sum of
mark price times quantity over the open positions. -/
def equityOf (data : String → List Bar) (i : Nat) (cash : ℚ)
    (positions : List (String × Position)) : ℚ :=
  cash + (positions.map (fun sp => markPrice data i sp.1 * sp.2.quantity)).sum

/-- Entry-price valuation of the open positions (capital currently tied
up in them at cost). -/
def entryValue (positions : List (String × Position)) : ℚ :=
  (positions.map (fun sp => sp.2.entryPrice * sp.2.quantity)).sum

/-- True when a rule's metric is PRICE (`price_increase`/`price_decrease`). -/
def metricIsPrice (r : TradingRule) : Bool :=
  match r.changeType with
  | .price_increase => true
  | .price_decrease => true
  | .volume_increase => false
  | .volume_decrease => false

/-- The SELL firing test as claim C3 words it: the position's P&L percent
is compared against the rule's threshold regardless of the rule's metric
(INCREASE direction fires at `≥ percent`, DECREASE at `≤ −percent`).
Follows the claim's words, for comparison with `sellTriggered`. -/
def sellFiresPnlOnly (r : TradingRule) (positionPnLPercent : ℚ) : Bool :=
  match r.changeType with
  | .price_increase => decide (positionPnLPercent ≥ r.changePercent)
  | .volume_increase => decide (positionPnLPercent ≥ r.changePercent)
  | .price_decrease => decide (positionPnLPercent ≤ -r.changePercent)
  | .volume_decrease => decide (positionPnLPercent ≤ -r.changePercent)

/-- The drawdown metric as claim C5 words it: the running-peak drawdown
maximum over every point of the reported equity curve, including the
final snapshot. Follows the claim's words, for comparison with the
reported `maxDrawdown`. -/
def maxDrawdownAllSnapshots (init : ℚ) (r : BacktestResult) : ℚ :=
  maxDrawdownOf init r.portfolioValue

/-- Invariant for trade pairing: position keys are distinct, every
instrument's trade log alternates strictly starting with a BUY, and an
instrument holds a position exactly when its trade count is odd. -/
structure InvAlt (st : SimState) : Prop where
  nodup : (st.positions.map Prod.fst).Nodup
  alt : ∀ s, StrictAlt (decisionsFor s st.trades)
  par : ∀ s, (lookupPos st.positions s).isSome = true ↔
    (decisionsFor s st.trades).length % 2 = 1

/-- Ledger invariant: cash plus capital tied up in open positions at
their entry prices equals the initial capital plus realized P&L. -/
def LedgerEq (init : ℚ) (st : SimState) : Prop :=
  st.cash + entryValue st.positions = init + sumPnl st.trades

/-- Invariant for capital gating: cash replays from the trade log, every
prefix of the replay is non-negative, every BUY trade was affordable at
the cash balance immediately prior, open positions have non-negative
entry prices and quantities, and all sampled equities are non-negative. -/
structure InvCash (init : ℚ) (st : SimState) : Prop where
  replay : st.cash = replayCash init st.trades
  prefixes : ∀ n, 0 ≤ replayCash init (st.trades.take n)
  gated : ∀ n t, st.trades[n]? = some t → t.decision = Decision.BUY →
    t.price * t.quantity ≤ replayCash init (st.trades.take n)
  posWF : ∀ sp ∈ st.positions, 0 ≤ sp.2.entryPrice ∧ 0 ≤ sp.2.quantity
  pvNonneg : ∀ v ∈ st.portfolioValues, 0 ≤ v

/-! ### Concrete inputs used by the claims -/

/-- BUY when price drops by at least 3%, quantity 10 (spec §8.6). -/
def ruleBuy3 : TradingRule :=
  { name := "buy-on-3%-drop", changeType := .price_decrease, changePercent := 3,
    decision := .BUY, quantity := 10, enabled := true }

/-- SELL when the position gains at least 2% (spec §8.6). -/
def ruleSell2 : TradingRule :=
  { name := "sell-on-2%-gain", changeType := .price_increase, changePercent := 2,
    decision := .SELL, quantity := 10, enabled := true }

/-- The configuration of the concrete scenario of spec §8.6. -/
def cfg86 : BacktestConfig :=
  { stocks := ["XYZ"], startDate := "2024-01-01", endDate := "2024-12-01",
    initialCapital := 100000, rules := [ruleBuy3, ruleSell2] }

/-- The §8.6 price series 100, 97, 101, 95, 99. -/
def bars86 : List Bar :=
  [⟨"t0", 100, 1000⟩, ⟨"t1", 97, 1000⟩, ⟨"t2", 101, 1000⟩,
   ⟨"t3", 95, 1000⟩, ⟨"t4", 99, 1000⟩]

/-- Price series provider for the §8.6 scenario. -/
def data86 : String → List Bar := fun s => if s = "XYZ" then bars86 else []

/-- BUY on a volume jump of at least 5%. -/
def ruleVolBuy : TradingRule :=
  { name := "vol-buy", changeType := .volume_increase, changePercent := 5,
    decision := .BUY, quantity := 1, enabled := true }

/-- SELL on a volume jump of at least 5%. -/
def ruleVolSell : TradingRule :=
  { name := "vol-sell", changeType := .volume_increase, changePercent := 5,
    decision := .SELL, quantity := 1, enabled := true }

/-- Configuration with volume-triggered entry and exit on one stock. -/
def cfgVol : BacktestConfig :=
  { stocks := ["A"], startDate := "s", endDate := "e",
    initialCapital := 1000, rules := [ruleVolBuy, ruleVolSell] }

/-- Two bars with a 100% volume jump at the second. -/
def barsVol : List Bar := [⟨"t0", 10, 1000⟩, ⟨"t1", 10, 2000⟩]

/-- Provider for `cfgVol`. -/
def dataVol : String → List Bar := fun s => if s = "A" then barsVol else []

/-- BUY when price drops by at least 3%, quantity 10. -/
def rulePxBuy : TradingRule :=
  { name := "px-buy", changeType := .price_decrease, changePercent := 3,
    decision := .BUY, quantity := 10, enabled := true }

/-- SELL-side rule with VOLUME metric: volume jump of at least 5%. -/
def ruleVolExit : TradingRule :=
  { name := "vol-exit", changeType := .volume_increase, changePercent := 5,
    decision := .SELL, quantity := 10, enabled := true }

/-- Configuration exercising a VOLUME-metric SELL rule while holding. -/
def cfgVolExit : BacktestConfig :=
  { stocks := ["A"], startDate := "s", endDate := "e",
    initialCapital := 100000, rules := [rulePxBuy, ruleVolExit] }

/-- Bars: 3% price drop (entry), then a slight further loss together
with a 100% volume jump. -/
def barsVolExit : List Bar :=
  [⟨"t0", 100, 1000⟩, ⟨"t1", 97, 1000⟩, ⟨"t2", 96, 2000⟩]

/-- Provider for `cfgVolExit`. -/
def dataVolExit : String → List Bar := fun s => if s = "A" then barsVolExit else []

/-- A 200-bar series: 100, then 97 for 198 bars, then a crash to 50 at
the very last bar. With 200 bars the sampling cadence is every 2nd step,
so the last loop iteration (index 199) is not sampled. -/
def barsLate : List Bar :=
  ⟨"t0", 100, 1000⟩ :: List.replicate 198 ⟨"tm", 97, 1000⟩ ++ [⟨"tz", 50, 1000⟩]

/-- Configuration for the late-crash series (entry at 97, exit never). -/
def cfgLate : BacktestConfig :=
  { stocks := ["A"], startDate := "s", endDate := "e",
    initialCapital := 100000, rules := [ruleBuy3, ruleSell2] }

/-- Provider for `cfgLate`. -/
def dataLate : String → List Bar := fun s => if s = "A" then barsLate else []

/-- A BUY rule whose cost (quantity 1000) exceeds the available cash. -/
def ruleBigBuy : TradingRule :=
  { name := "big-buy", changeType := .price_decrease, changePercent := 3,
    decision := .BUY, quantity := 1000, enabled := true }

/-- A later BUY rule whose cost (quantity 1) is affordable. -/
def ruleSmallBuy : TradingRule :=
  { name := "small-buy", changeType := .price_decrease, changePercent := 3,
    decision := .BUY, quantity := 1, enabled := true }

/-- A SELL rule that never fires in the scenario. -/
def ruleNeverSell : TradingRule :=
  { name := "never-sell", changeType := .price_increase, changePercent := 50,
    decision := .SELL, quantity := 1, enabled := true }

/-- Configuration where the first BUY rule in declaration order triggers
but is unaffordable while the second triggers and is affordable. -/
def cfgSkip : BacktestConfig :=
  { stocks := ["A"], startDate := "s", endDate := "e",
    initialCapital := 100, rules := [ruleBigBuy, ruleSmallBuy, ruleNeverSell] }

/-- Two bars with a 3% price drop at the second. -/
def barsSkip : List Bar := [⟨"t0", 100, 1000⟩, ⟨"t1", 97, 1000⟩]

/-- Provider for `cfgSkip`. -/
def dataSkip : String → List Bar := fun s => if s = "A" then barsSkip else []

end SystematicTrader

attribute [local semireducible] Rat.add Rat.sub Rat.mul Rat.inv

namespace SystematicTrader



/-! ### Association-list lemmas -/

theorem lookupPos_append_of_some {l l2 : List (String × Position)} {k : String}
    {p : Position} (h : lookupPos l k = some p) :
    lookupPos (l ++ l2) k = some p := by
  induction l with
  | nil => simp [lookupPos] at h
  | cons hd tl ih =>
    obtain ⟨s, q⟩ := hd
    by_cases hs : s = k
    · simp [lookupPos, hs] at h ⊢; exact h
    · simp [lookupPos, hs] at h ⊢; exact ih h

theorem lookupPos_append_of_none {l l2 : List (String × Position)} {k : String}
    (h : lookupPos l k = none) :
    lookupPos (l ++ l2) k = lookupPos l2 k := by
  induction l with
  | nil => simp
  | cons hd tl ih =>
    obtain ⟨s, q⟩ := hd
    by_cases hs : s = k
    · simp [lookupPos, hs] at h
    · simp [lookupPos, hs] at h ⊢; exact ih h

theorem lookupPos_eq_none_iff {l : List (String × Position)} {k : String} :
    lookupPos l k = none ↔ k ∉ l.map Prod.fst := by
  induction l with
  | nil => simp [lookupPos]
  | cons hd tl ih =>
    obtain ⟨s, q⟩ := hd
    by_cases hs : s = k
    · simp [lookupPos, hs]
    · simp [lookupPos, hs, ih]
      intro hk
      exact fun he => hs he.symm

theorem lookupPos_isSome_iff_mem {l : List (String × Position)} {k : String} :
    (lookupPos l k).isSome = true ↔ k ∈ l.map Prod.fst := by
  rcases h : lookupPos l k with _ | p
  · simp [lookupPos_eq_none_iff.mp h]
  · simp
    have : ¬ lookupPos l k = none := by simp [h]
    rcases (not_iff_not.mpr (lookupPos_eq_none_iff (l := l) (k := k))).mp this with hk
    simpa using hk

theorem erasePos_sublist (l : List (String × Position)) (k : String) :
    (erasePos l k).Sublist l := by
  induction l with
  | nil => simp [erasePos]
  | cons hd tl ih =>
    obtain ⟨s, q⟩ := hd
    by_cases hs : s = k
    · rw [erasePos, if_pos hs]
      exact List.sublist_cons_self (s, q) tl
    · simpa [erasePos, hs] using ih.cons₂ (s, q)

theorem mem_of_mem_erasePos {l : List (String × Position)} {k : String}
    {sp : String × Position} (h : sp ∈ erasePos l k) : sp ∈ l :=
  (erasePos_sublist l k).mem h

theorem lookupPos_erasePos_of_ne {l : List (String × Position)} {k k' : String}
    (h : k' ≠ k) : lookupPos (erasePos l k) k' = lookupPos l k' := by
  induction l with
  | nil => simp [erasePos]
  | cons hd tl ih =>
    obtain ⟨s, q⟩ := hd
    by_cases hs : s = k
    · have hk' : ¬ k = k' := fun he => h he.symm
      simp [erasePos, lookupPos, hs, hk']
    · by_cases hs' : s = k'
      · simp [erasePos, lookupPos, hs, hs', h]
      · simp [erasePos, lookupPos, hs, hs', ih]

theorem lookupPos_erasePos_self {l : List (String × Position)} {k : String}
    (hnd : (l.map Prod.fst).Nodup) : lookupPos (erasePos l k) k = none := by
  induction l with
  | nil => simp [erasePos, lookupPos]
  | cons hd tl ih =>
    obtain ⟨s, q⟩ := hd
    simp at hnd
    by_cases hs : s = k
    · subst hs
      simpa [erasePos, lookupPos_eq_none_iff] using hnd.1
    · simp [erasePos, lookupPos, hs]
      exact ih hnd.2

theorem nodup_keys_erasePos {l : List (String × Position)} {k : String}
    (hnd : (l.map Prod.fst).Nodup) : ((erasePos l k).map Prod.fst).Nodup :=
  hnd.sublist ((erasePos_sublist l k).map Prod.fst)

theorem entryValue_append (l l2 : List (String × Position)) :
    entryValue (l ++ l2) = entryValue l + entryValue l2 := by
  simp [entryValue]

theorem entryValue_erasePos {l : List (String × Position)} {k : String}
    {p : Position} (h : lookupPos l k = some p) :
    entryValue l = entryValue (erasePos l k) + p.entryPrice * p.quantity := by
  induction l with
  | nil => simp [lookupPos] at h
  | cons hd tl ih =>
    obtain ⟨s, q⟩ := hd
    by_cases hs : s = k
    · simp [lookupPos, hs] at h
      subst h
      simp [erasePos, hs, entryValue]
      ring
    · simp [lookupPos, hs] at h
      simp [erasePos, hs, entryValue] at ih ⊢
      rw [ih h]
      ring

/-! ### Trade-log lemmas -/

theorem tradesFor_append (s : String) (ts ts2 : List Trade) :
    tradesFor s (ts ++ ts2) = tradesFor s ts ++ tradesFor s ts2 := by
  simp [tradesFor]

theorem decisionsFor_append (s : String) (ts ts2 : List Trade) :
    decisionsFor s (ts ++ ts2) = decisionsFor s ts ++ decisionsFor s ts2 := by
  simp [decisionsFor, tradesFor_append]

theorem decisionsFor_single_of_stock {s : String} {t : Trade} (h : t.stock = s) :
    decisionsFor s [t] = [t.decision] := by
  simp [decisionsFor, tradesFor, h]

theorem decisionsFor_single_of_ne {s : String} {t : Trade} (h : ¬ t.stock = s) :
    decisionsFor s [t] = [] := by
  simp [decisionsFor, tradesFor, h]

theorem StrictAlt_nil : StrictAlt [] := by
  intro k hk
  simp at hk

theorem StrictAlt.snoc {l : List Decision} {d : Decision} (h : StrictAlt l)
    (hd : d = (if l.length % 2 = 0 then Decision.BUY else Decision.SELL)) :
    StrictAlt (l ++ [d]) := by
  intro k hk
  simp at hk
  rcases Nat.lt_or_ge k l.length with hlt | hge
  · rw [List.getElem?_append_left hlt]
    exact h k hlt
  · have hk' : k = l.length := by omega
    subst hk'
    rw [List.getElem?_concat_length]
    rw [hd]

theorem replayCash_append (init : ℚ) (ts ts2 : List Trade) :
    replayCash init (ts ++ ts2) = replayCash (replayCash init ts) ts2 := by
  simp [replayCash]

theorem foldl_add_sum {α : Type} (f : α → ℚ) (l : List α) (a : ℚ) :
    l.foldl (fun acc x => acc + f x) a = a + (l.map f).sum := by
  induction l generalizing a with
  | nil => simp
  | cons hd tl ih =>
    simp [ih]
    ring

theorem sellTradesOf_append (ts ts2 : List Trade) :
    sellTradesOf (ts ++ ts2) = sellTradesOf ts ++ sellTradesOf ts2 := by
  simp [sellTradesOf]

theorem sumPnl_eq_sum (ts : List Trade) :
    sumPnl ts = ((sellTradesOf ts).map (fun t => t.pnl.getD 0)).sum := by
  simpa [sumPnl] using foldl_add_sum (fun t : Trade => t.pnl.getD 0) (sellTradesOf ts) 0

theorem sumPnl_append (ts ts2 : List Trade) :
    sumPnl (ts ++ ts2) = sumPnl ts + sumPnl ts2 := by
  simp [sumPnl_eq_sum, sellTradesOf_append]

theorem sumPnl_buy {t : Trade} (h : t.pnl = none) : sumPnl [t] = 0 := by
  simp [sumPnl, sellTradesOf, h]

theorem sumPnl_sell {t : Trade} {x : ℚ} (hd : t.decision = Decision.SELL)
    (h : t.pnl = some x) : sumPnl [t] = x := by
  simp [sumPnl, sellTradesOf, hd, h]

theorem foldl_preserve {α β : Type} {P : α → Prop} {f : α → β → α}
    (h : ∀ st x, P st → P (f st x)) :
    ∀ (l : List β) (st : α), P st → P (l.foldl f st)
  | [], _, hst => hst
  | x :: xs, st, hst => foldl_preserve h xs (f st x) (h st x hst)

/-! ### Buy-scan lemmas -/

theorem scanBuy_spec {cash price priceChange volumeChange : ℚ}
    {rules : List TradingRule} {r : TradingRule}
    (h : scanBuy cash price priceChange volumeChange rules = some r) :
    r ∈ rules ∧ buyTriggered r priceChange volumeChange = true ∧
      price * r.quantity ≤ cash := by
  induction rules with
  | nil => simp [scanBuy] at h
  | cons hd tl ih =>
    rw [scanBuy] at h
    by_cases ht : buyTriggered hd priceChange volumeChange
    · rw [if_pos ht] at h
      by_cases ha : cash ≥ price * hd.quantity
      · rw [if_pos ha] at h
        obtain rfl : hd = r := by simpa using h
        exact ⟨List.mem_cons_self _ _, ht, ha⟩
      · rw [if_neg ha] at h
        obtain ⟨hm, h1, h2⟩ := ih h
        exact ⟨List.mem_cons_of_mem _ hm, h1, h2⟩
    · rw [if_neg ht] at h
      obtain ⟨hm, h1, h2⟩ := ih h
      exact ⟨List.mem_cons_of_mem _ hm, h1, h2⟩

/-! ### Shape of one stock step -/

theorem execBuy_trades (stock : String) (i : Nat) (current : Bar)
    (r : TradingRule) (st : SimState) :
    ∃ t, t.stock = stock ∧ t.decision = Decision.BUY ∧
      (execBuy stock i current r st).trades = st.trades ++ [t] := by
  exact ⟨_, rfl, rfl, rfl⟩

theorem execSell_trades (stock : String) (i : Nat) (current : Bar)
    (r : TradingRule) (pos : Position) (st : SimState) :
    ∃ t, t.stock = stock ∧ t.decision = Decision.SELL ∧
      (execSell stock i current r pos st).trades = st.trades ++ [t] := by
  exact ⟨_, rfl, rfl, rfl⟩

theorem buyPhase_cases (buyRules : List TradingRule) (stock : String) (i : Nat)
    (current : Bar) (priceChange volumeChange : ℚ) (st : SimState) :
    buyPhase buyRules stock i current priceChange volumeChange st = st ∨
    (lookupPos st.positions stock = none ∧ ∃ r,
      scanBuy st.cash current.price priceChange volumeChange buyRules = some r ∧
      buyPhase buyRules stock i current priceChange volumeChange st =
        execBuy stock i current r st) := by
  rw [buyPhase]
  rcases hl : lookupPos st.positions stock with _ | p
  · rcases hs : scanBuy st.cash current.price priceChange volumeChange buyRules with _ | r
    · exact Or.inl rfl
    · exact Or.inr ⟨rfl, r, rfl, rfl⟩
  · exact Or.inl rfl

theorem sellPhase_cases (sellRules : List TradingRule) (stock : String) (i : Nat)
    (current : Bar) (positionPnLPercent volumeChange : ℚ) (st : SimState) :
    sellPhase sellRules stock i current positionPnLPercent volumeChange st = st ∨
    (∃ pos r, lookupPos st.positions stock = some pos ∧
      sellRules.find? (fun r => sellTriggered r positionPnLPercent volumeChange) = some r ∧
      sellPhase sellRules stock i current positionPnLPercent volumeChange st =
        execSell stock i current r pos st) := by
  rw [sellPhase]
  rcases hl : lookupPos st.positions stock with _ | pos
  · exact Or.inl rfl
  · rcases hf : sellRules.find? (fun r => sellTriggered r positionPnLPercent volumeChange)
      with _ | r
    · exact Or.inl rfl
    · exact Or.inr ⟨pos, r, rfl, rfl, rfl⟩

theorem stepStock_cases (buyRules sellRules : List TradingRule)
    (data : String → List Bar) (i : Nat) (st : SimState) (stock : String) :
    stepStock buyRules sellRules data i st stock = st ∨
    (∃ current previous, (data stock)[i]? = some current ∧
      (data stock)[i - 1]? = some previous ∧
      stepStock buyRules sellRules data i st stock =
        sellPhase sellRules stock i current
          (match lookupPos st.positions stock with
           | some p => (current.price - p.entryPrice) / p.entryPrice * 100
           | none => 0)
          ((current.volume - previous.volume) / previous.volume * 100)
          (buyPhase buyRules stock i current
            ((current.price - previous.price) / previous.price * 100)
            ((current.volume - previous.volume) / previous.volume * 100) st)) := by
  rw [stepStock]
  rcases hc : (data stock)[i]? with _ | current
  · exact Or.inl rfl
  · rcases hp : (data stock)[i - 1]? with _ | previous
    · exact Or.inl rfl
    · exact Or.inr ⟨current, previous, rfl, rfl, rfl⟩

theorem stepStock_shape (buyRules sellRules : List TradingRule)
    (data : String → List Bar) (i : Nat) (st : SimState) (stock : String) :
    (stepStock buyRules sellRules data i st stock).trades = st.trades ∨
    (∃ t, t.stock = stock ∧
      (stepStock buyRules sellRules data i st stock).trades = st.trades ++ [t]) ∨
    (∃ t1 t2, t1.stock = stock ∧ t2.stock = stock ∧
      t1.decision = Decision.BUY ∧ t2.decision = Decision.SELL ∧
      (stepStock buyRules sellRules data i st stock).trades = st.trades ++ [t1, t2]) := by
  rcases stepStock_cases buyRules sellRules data i st stock with h | ⟨cur, prev, _, _, h⟩
  · exact Or.inl (by rw [h])
  · rw [h]
    rcases buyPhase_cases buyRules stock i cur
        ((cur.price - prev.price) / prev.price * 100)
        ((cur.volume - prev.volume) / prev.volume * 100) st with hb | ⟨_, r, _, hb⟩
    · rw [hb]
      rcases sellPhase_cases sellRules stock i cur
          (match lookupPos st.positions stock with
           | some p => (cur.price - p.entryPrice) / p.entryPrice * 100
           | none => 0)
          ((cur.volume - prev.volume) / prev.volume * 100) st with hs | ⟨pos, r, _, _, hs⟩
      · exact Or.inl (by rw [hs])
      · rw [hs]
        obtain ⟨t, h1, h2, h3⟩ := execSell_trades stock i cur r pos st
        exact Or.inr (Or.inl ⟨t, h1, h3⟩)
    · rw [hb]
      obtain ⟨t1, hb1, hb2, hb3⟩ := execBuy_trades stock i cur r st
      rcases sellPhase_cases sellRules stock i cur
          (match lookupPos st.positions stock with
           | some p => (cur.price - p.entryPrice) / p.entryPrice * 100
           | none => 0)
          ((cur.volume - prev.volume) / prev.volume * 100)
          (execBuy stock i cur r st) with hs | ⟨pos, r2, _, _, hs⟩
      · rw [hs]
        exact Or.inr (Or.inl ⟨t1, hb1, hb3⟩)
      · rw [hs]
        obtain ⟨t2, hs1, hs2, hs3⟩ := execSell_trades stock i cur r2 pos (execBuy stock i cur r st)
        refine Or.inr (Or.inr ⟨t1, t2, hb1, hs1, hb2, hs2, ?_⟩)
        rw [hs3, hb3]
        simp

/-! ### Preservation of the alternation invariant -/

theorem invAlt_execBuy {st : SimState} {stock : String} {i : Nat} {current : Bar}
    {r : TradingRule} (h : InvAlt st) (hl : lookupPos st.positions stock = none) :
    InvAlt (execBuy stock i current r st) := by
  have hmem : stock ∉ st.positions.map Prod.fst := lookupPos_eq_none_iff.mp hl
  have hp0 : (decisionsFor stock st.trades).length % 2 = 0 := by
    have hpar := h.par stock
    rw [hl] at hpar
    simp at hpar
    omega
  refine ⟨?_, ?_, ?_⟩
  · show ((st.positions ++ _).map Prod.fst).Nodup
    rw [List.map_append]
    rw [List.nodup_append]
    refine ⟨h.nodup, by simp, ?_⟩
    intro a ha hb
    simp at hb
    subst hb
    exact hmem ha
  · intro s
    show StrictAlt (decisionsFor s (st.trades ++ _))
    rw [decisionsFor_append]
    by_cases hss : stock = s
    · rw [decisionsFor_single_of_stock (show stock = s from hss)]
      refine (h.alt s).snoc ?_
      rw [← hss, hp0]
      simp
    · rw [decisionsFor_single_of_ne (show ¬ stock = s from hss)]
      simpa using h.alt s
  · intro s
    show (lookupPos (st.positions ++ _) s).isSome = true ↔
      (decisionsFor s (st.trades ++ _)).length % 2 = 1
    rw [decisionsFor_append]
    by_cases hss : stock = s
    · subst hss
      rw [lookupPos_append_of_none hl]
      rw [decisionsFor_single_of_stock (show stock = stock from rfl)]
      simp [lookupPos, hp0]
      omega
    · rw [decisionsFor_single_of_ne (show ¬ stock = s from hss)]
      rcases hq : lookupPos st.positions s with _ | q
      · rw [lookupPos_append_of_none hq]
        have hpar := h.par s
        rw [hq] at hpar
        simp at hpar
        simp [lookupPos, hss]
        omega
      · rw [lookupPos_append_of_some hq]
        have hpar := h.par s
        rw [hq] at hpar
        simpa using hpar
  
theorem invAlt_execSell {st : SimState} {stock : String} {i : Nat} {current : Bar}
    {r : TradingRule} {pos : Position} (h : InvAlt st)
    (hl : lookupPos st.positions stock = some pos) :
    InvAlt (execSell stock i current r pos st) := by
  have hp1 : (decisionsFor stock st.trades).length % 2 = 1 := by
    have hpar := h.par stock
    rw [hl] at hpar
    simpa using hpar
  refine ⟨?_, ?_, ?_⟩
  · show ((erasePos st.positions stock).map Prod.fst).Nodup
    exact nodup_keys_erasePos h.nodup
  · intro s
    show StrictAlt (decisionsFor s (st.trades ++ _))
    rw [decisionsFor_append]
    by_cases hss : stock = s
    · rw [decisionsFor_single_of_stock (show stock = s from hss)]
      refine (h.alt s).snoc ?_
      rw [← hss, hp1]
      simp
    · rw [decisionsFor_single_of_ne (show ¬ stock = s from hss)]
      simpa using h.alt s
  · intro s
    show (lookupPos (erasePos st.positions stock) s).isSome = true ↔
      (decisionsFor s (st.trades ++ _)).length % 2 = 1
    rw [decisionsFor_append]
    by_cases hss : stock = s
    · subst hss
      rw [lookupPos_erasePos_self h.nodup]
      rw [decisionsFor_single_of_stock (show stock = stock from rfl)]
      simp [hp1]
      omega
    · rw [lookupPos_erasePos_of_ne (fun h => hss h.symm)]
      rw [decisionsFor_single_of_ne (show ¬ stock = s from hss)]
      simpa using h.par s

theorem invAlt_buyPhase {st : SimState} {buyRules : List TradingRule} {stock : String}
    {i : Nat} {current : Bar} {priceChange volumeChange : ℚ} (h : InvAlt st) :
    InvAlt (buyPhase buyRules stock i current priceChange volumeChange st) := by
  rcases buyPhase_cases buyRules stock i current priceChange volumeChange st with
    hb | ⟨hl, r, _, hb⟩
  · rw [hb]; exact h
  · rw [hb]; exact invAlt_execBuy h hl

theorem invAlt_sellPhase {st : SimState} {sellRules : List TradingRule} {stock : String}
    {i : Nat} {current : Bar} {positionPnLPercent volumeChange : ℚ} (h : InvAlt st) :
    InvAlt (sellPhase sellRules stock i current positionPnLPercent volumeChange st) := by
  rcases sellPhase_cases sellRules stock i current positionPnLPercent volumeChange st with
    hs | ⟨pos, r, hl, _, hs⟩
  · rw [hs]; exact h
  · rw [hs]; exact invAlt_execSell h hl

theorem invAlt_stepStock {st : SimState} {buyRules sellRules : List TradingRule}
    {data : String → List Bar} {i : Nat} {stock : String} (h : InvAlt st) :
    InvAlt (stepStock buyRules sellRules data i st stock) := by
  rcases stepStock_cases buyRules sellRules data i st stock with hc | ⟨cur, prev, _, _, hc⟩
  · rw [hc]; exact h
  · rw [hc]; exact invAlt_sellPhase (invAlt_buyPhase h)

theorem invAlt_sampleStep {st : SimState} {stocks : List String}
    {data : String → List Bar} {maxLen : Nat} {endDate : String} {i : Nat}
    (h : InvAlt st) : InvAlt (sampleStep stocks data maxLen endDate i st) := by
  rw [sampleStep]
  split
  · exact ⟨h.nodup, h.alt, h.par⟩
  · exact h

theorem invAlt_stepBar {st : SimState} {stocks : List String}
    {buyRules sellRules : List TradingRule} {data : String → List Bar}
    {maxLen : Nat} {endDate : String} {i : Nat} (h : InvAlt st) :
    InvAlt (stepBar stocks buyRules sellRules data maxLen endDate i st) := by
  rw [stepBar]
  refine invAlt_sampleStep ?_
  exact foldl_preserve (fun st x hst => invAlt_stepStock hst) stocks st h

theorem invAlt_initState (cfg : BacktestConfig) : InvAlt (initState cfg) := by
  refine ⟨by simp [initState], ?_, ?_⟩
  · intro s
    simpa [initState, decisionsFor, tradesFor] using StrictAlt_nil
  · intro s
    simp [initState, decisionsFor, tradesFor, lookupPos]

theorem invAlt_runLoop (cfg : BacktestConfig) (data : String → List Bar) :
    InvAlt (runLoop cfg data) := by
  rw [runLoop]
  exact foldl_preserve (fun st i hst => invAlt_stepBar hst) _ _ (invAlt_initState cfg)

/-! ### Liquidation lemmas -/

theorem lookupPos_mem {l : List (String × Position)} {k : String} {p : Position}
    (h : lookupPos l k = some p) : (k, p) ∈ l := by
  induction l with
  | nil => simp [lookupPos] at h
  | cons hd tl ih =>
    obtain ⟨s, q⟩ := hd
    by_cases hs : s = k
    · subst hs
      simp [lookupPos] at h
      subst h
      exact List.mem_cons_self _ _
    · simp [lookupPos, hs] at h
      exact List.mem_cons_of_mem _ (ih h)

theorem liqGo_trades (data : String → List Bar) (endD : String) :
    ∀ (l : List (String × Position)) (st : SimState),
      (liqGo data endD l st).trades = st.trades ++ l.map (liqTrade data endD)
  | [], st => by simp [liqGo]
  | hd :: tl, st => by
    show (liqGo data endD tl (liquidateOne data endD st hd)).trades = _
    rw [liqGo_trades data endD tl (liquidateOne data endD st hd)]
    simp [liquidateOne]

theorem liqGo_cash (data : String → List Bar) (endD : String) :
    ∀ (l : List (String × Position)) (st : SimState),
      (liqGo data endD l st).cash =
        st.cash + (l.map (fun sp => finalPriceOf data sp * sp.2.quantity)).sum
  | [], st => by simp [liqGo]
  | hd :: tl, st => by
    show (liqGo data endD tl (liquidateOne data endD st hd)).cash = _
    rw [liqGo_cash data endD tl (liquidateOne data endD st hd)]
    simp [liquidateOne]
    ring

theorem liqGo_positions (data : String → List Bar) (endD : String) :
    ∀ (l : List (String × Position)) (st : SimState),
      (liqGo data endD l st).positions = st.positions
  | [], st => by simp [liqGo]
  | hd :: tl, st => by
    show (liqGo data endD tl (liquidateOne data endD st hd)).positions = _
    rw [liqGo_positions data endD tl (liquidateOne data endD st hd)]
    rfl

theorem liqGo_pvs (data : String → List Bar) (endD : String) :
    ∀ (l : List (String × Position)) (st : SimState),
      (liqGo data endD l st).portfolioValues = st.portfolioValues
  | [], st => by simp [liqGo]
  | hd :: tl, st => by
    show (liqGo data endD tl (liquidateOne data endD st hd)).portfolioValues = _
    rw [liqGo_pvs data endD tl (liquidateOne data endD st hd)]
    rfl

theorem liqGo_alt (data : String → List Bar) (endD : String) :
    ∀ (l : List (String × Position)) (st : SimState),
      (l.map Prod.fst).Nodup →
      (∀ s, StrictAlt (decisionsFor s st.trades)) →
      (∀ s, (decisionsFor s st.trades).length % 2 =
        (if s ∈ l.map Prod.fst then 1 else 0)) →
      ∀ s, StrictAlt (decisionsFor s (liqGo data endD l st).trades) ∧
        (decisionsFor s (liqGo data endD l st).trades).length % 2 = 0
  | [], st, hnd, halt, hp, s => by
    have := hp s
    simp at this
    exact ⟨by simpa [liqGo] using halt s, by simpa [liqGo] using this⟩
  | (s0, p0) :: tl, st, hnd, halt, hp, s => by
    show StrictAlt (decisionsFor s (liqGo data endD tl (liquidateOne data endD st (s0, p0))).trades) ∧ _
    have hpar0 : (decisionsFor s0 st.trades).length % 2 = 1 := by
      have := hp s0
      simpa using this
    have htr : (liquidateOne data endD st (s0, p0)).trades =
        st.trades ++ [liqTrade data endD (s0, p0)] := rfl
    have hstock : (liqTrade data endD (s0, p0)).stock = s0 := rfl
    rw [List.map_cons, List.nodup_cons] at hnd
    refine liqGo_alt data endD tl (liquidateOne data endD st (s0, p0)) hnd.2 ?_ ?_ s
    · intro s'
      rw [htr, decisionsFor_append]
      by_cases hss : s0 = s'
      · rw [decisionsFor_single_of_stock (show (liqTrade data endD (s0, p0)).stock = s' from hss)]
        refine (halt s').snoc ?_
        rw [← hss, hpar0]
        simp [liqTrade]
      · rw [decisionsFor_single_of_ne
          (show ¬ (liqTrade data endD (s0, p0)).stock = s' from hss)]
        simpa using halt s'
    · intro s'
      rw [htr, decisionsFor_append]
      by_cases hss : s0 = s'
      · subst hss
        rw [decisionsFor_single_of_stock (show (liqTrade data endD (s0, p0)).stock = s0 from rfl)]
        have hnm : s0 ∉ tl.map Prod.fst := hnd.1
        simp [hnm]
        omega
      · rw [decisionsFor_single_of_ne
          (show ¬ (liqTrade data endD (s0, p0)).stock = s' from hss)]
        have hne : ¬ s' = s0 := fun he => hss he.symm
        have := hp s'
        rw [List.map_cons] at this
        by_cases hm : s' ∈ List.map Prod.fst tl
        · rw [if_pos (List.mem_cons_of_mem _ hm)] at this
          simpa [hm] using this
        · have hnot : s' ∉ s0 :: List.map Prod.fst tl := by
            intro hcon
            rcases List.mem_cons.mp hcon with he | hm2
            · exact hne he
            · exact hm hm2
          rw [if_neg hnot] at this
          simpa [hm] using this

/-- C6: for every instrument, the trade log alternates strictly between
BUY and SELL starting with a BUY (the k-th trade of the instrument is a
BUY for even k, a SELL for odd k), every instrument ends the run FLAT
(its trade count is even, every BUY being matched by a SELL), and every
position still open at the end of the time loop is forcibly liquidated
as a SELL trade with the reserved rule name "End of Backtest" at the
instrument's final available price. -/
theorem claim_c6_trade_pairing (cfg : BacktestConfig) (data : String → List Bar)
    (s : String) :
    StrictAlt (decisionsFor s (runBacktest cfg data).trades) ∧
    (decisionsFor s (runBacktest cfg data).trades).length % 2 = 0 ∧
    (∀ p, lookupPos (runLoop cfg data).positions s = some p →
      ∃ t ∈ (runBacktest cfg data).trades, t.stock = s ∧
        t.decision = Decision.SELL ∧ t.ruleTriggered = "End of Backtest" ∧
        t.price = finalPriceOf data (s, p) ∧ t.quantity = p.quantity) := by
  have ha := invAlt_runLoop cfg data
  have hparity : ∀ s', (decisionsFor s' (runLoop cfg data).trades).length % 2 =
      (if s' ∈ (runLoop cfg data).positions.map Prod.fst then 1 else 0) := by
    intro s'
    by_cases hm : s' ∈ (runLoop cfg data).positions.map Prod.fst
    · rw [if_pos hm]
      exact (ha.par s').mp (lookupPos_isSome_iff_mem.mpr hm)
    · rw [if_neg hm]
      have : ¬ (lookupPos (runLoop cfg data).positions s').isSome = true := by
        intro hcon
        exact hm (lookupPos_isSome_iff_mem.mp hcon)
      have h1 := (not_iff_not.mpr (ha.par s')).mp this
      omega
  have hval := liqGo_alt data cfg.endDate (runLoop cfg data).positions
    (runLoop cfg data) ha.nodup ha.alt hparity s
  have htr : (runBacktest cfg data).trades =
      (liqGo data cfg.endDate (runLoop cfg data).positions (runLoop cfg data)).trades := rfl
  refine ⟨by rw [htr]; exact hval.1, by rw [htr]; exact hval.2, ?_⟩
  intro p hp
  refine ⟨liqTrade data cfg.endDate (s, p), ?_, rfl, rfl, rfl, rfl, rfl⟩
  rw [htr, liqGo_trades]
  refine List.mem_append_right _ ?_
  exact List.mem_map_of_mem _ (lookupPos_mem hp)

/-! ### Ledger invariant -/

theorem sum_map_sub {α : Type} (f g : α → ℚ) (l : List α) :
    (l.map (fun x => f x - g x)).sum = (l.map f).sum - (l.map g).sum := by
  induction l with
  | nil => simp
  | cons hd tl ih =>
    simp [ih]
    ring

theorem sumPnl_liqTrades (data : String → List Bar) (endD : String)
    (l : List (String × Position)) :
    sumPnl (l.map (liqTrade data endD)) =
      (l.map (fun sp => (finalPriceOf data sp - sp.2.entryPrice) * sp.2.quantity)).sum := by
  induction l with
  | nil => simp [sumPnl, sellTradesOf]
  | cons hd tl ih =>
    rw [List.map_cons, show (liqTrade data endD hd) :: List.map (liqTrade data endD) tl =
      [liqTrade data endD hd] ++ List.map (liqTrade data endD) tl from rfl, sumPnl_append, ih]
    rw [sumPnl_sell (t := liqTrade data endD hd) rfl rfl]
    simp

theorem ledgerEq_execBuy {init : ℚ} {st : SimState} {stock : String} {i : Nat}
    {current : Bar} {r : TradingRule} (h : LedgerEq init st) :
    LedgerEq init (execBuy stock i current r st) := by
  unfold LedgerEq at h ⊢
  show st.cash - current.price * r.quantity + entryValue (st.positions ++ _) =
    init + sumPnl (st.trades ++ _)
  rw [entryValue_append, sumPnl_append, sumPnl_buy rfl]
  show st.cash - current.price * r.quantity +
    (entryValue st.positions + entryValue [(stock,
      { entryPrice := current.price, quantity := r.quantity,
        entryTimestamp := current.timestamp })]) = init + (sumPnl st.trades + 0)
  simp only [entryValue, List.map_cons, List.map_nil, List.sum_cons, List.sum_nil]
  unfold entryValue at h
  linarith [h]

theorem ledgerEq_execSell {init : ℚ} {st : SimState} {stock : String} {i : Nat}
    {current : Bar} {r : TradingRule} {pos : Position} (h : LedgerEq init st)
    (hl : lookupPos st.positions stock = some pos) :
    LedgerEq init (execSell stock i current r pos st) := by
  unfold LedgerEq at h ⊢
  show st.cash + current.price * pos.quantity + entryValue (erasePos st.positions stock) =
    init + sumPnl (st.trades ++ _)
  rw [sumPnl_append]
  rw [sumPnl_sell (t := {
      id := "trade-" ++ toString i ++ "-" ++ stock ++ "-sell"
      timestamp := current.timestamp
      stock := stock
      decision := .SELL
      price := current.price
      quantity := pos.quantity
      ruleTriggered := r.name
      pnl := some ((current.price - pos.entryPrice) * pos.quantity) }) rfl rfl]
  have he := entryValue_erasePos hl
  linarith [h, he]

theorem ledgerEq_buyPhase {init : ℚ} {st : SimState} {buyRules : List TradingRule}
    {stock : String} {i : Nat} {current : Bar} {priceChange volumeChange : ℚ}
    (h : LedgerEq init st) :
    LedgerEq init (buyPhase buyRules stock i current priceChange volumeChange st) := by
  rcases buyPhase_cases buyRules stock i current priceChange volumeChange st with
    hb | ⟨_, r, _, hb⟩
  · rw [hb]; exact h
  · rw [hb]; exact ledgerEq_execBuy h

theorem ledgerEq_sellPhase {init : ℚ} {st : SimState} {sellRules : List TradingRule}
    {stock : String} {i : Nat} {current : Bar} {positionPnLPercent volumeChange : ℚ}
    (h : LedgerEq init st) :
    LedgerEq init (sellPhase sellRules stock i current positionPnLPercent volumeChange st) := by
  rcases sellPhase_cases sellRules stock i current positionPnLPercent volumeChange st with
    hs | ⟨pos, r, hl, _, hs⟩
  · rw [hs]; exact h
  · rw [hs]; exact ledgerEq_execSell h hl

theorem ledgerEq_stepStock {init : ℚ} {st : SimState} {buyRules sellRules : List TradingRule}
    {data : String → List Bar} {i : Nat} {stock : String} (h : LedgerEq init st) :
    LedgerEq init (stepStock buyRules sellRules data i st stock) := by
  rcases stepStock_cases buyRules sellRules data i st stock with hc | ⟨cur, prev, _, _, hc⟩
  · rw [hc]; exact h
  · rw [hc]; exact ledgerEq_sellPhase (ledgerEq_buyPhase h)

theorem ledgerEq_sampleStep {init : ℚ} {st : SimState} {stocks : List String}
    {data : String → List Bar} {maxLen : Nat} {endDate : String} {i : Nat}
    (h : LedgerEq init st) : LedgerEq init (sampleStep stocks data maxLen endDate i st) := by
  unfold LedgerEq at h ⊢
  rw [sampleStep]
  split
  · exact h
  · exact h

theorem ledgerEq_stepBar {init : ℚ} {st : SimState} {stocks : List String}
    {buyRules sellRules : List TradingRule} {data : String → List Bar}
    {maxLen : Nat} {endDate : String} {i : Nat} (h : LedgerEq init st) :
    LedgerEq init (stepBar stocks buyRules sellRules data maxLen endDate i st) := by
  rw [stepBar]
  refine ledgerEq_sampleStep ?_
  exact foldl_preserve (fun st x hst => ledgerEq_stepStock hst) stocks st h

theorem ledgerEq_runLoop (cfg : BacktestConfig) (data : String → List Bar) :
    LedgerEq cfg.initialCapital (runLoop cfg data) := by
  rw [runLoop]
  refine foldl_preserve (fun st i hst => ledgerEq_stepBar hst) _ _ ?_
  unfold LedgerEq
  simp [initState, entryValue, sumPnl, sellTradesOf]

theorem runSim_cash_eq (cfg : BacktestConfig) (data : String → List Bar) :
    (runSim cfg data).cash = cfg.initialCapital + sumPnl (runSim cfg data).trades := by
  have hL := ledgerEq_runLoop cfg data
  unfold LedgerEq at hL
  have hc : (runSim cfg data).cash = (runLoop cfg data).cash +
      ((runLoop cfg data).positions.map
        (fun sp => finalPriceOf data sp * sp.2.quantity)).sum :=
    liqGo_cash data cfg.endDate (runLoop cfg data).positions (runLoop cfg data)
  have ht : (runSim cfg data).trades = (runLoop cfg data).trades ++
      (runLoop cfg data).positions.map (liqTrade data cfg.endDate) :=
    liqGo_trades data cfg.endDate (runLoop cfg data).positions (runLoop cfg data)
  rw [hc, ht, sumPnl_append, sumPnl_liqTrades]
  have hfun : (fun sp : String × Position =>
      (finalPriceOf data sp - sp.2.entryPrice) * sp.2.quantity) =
      fun sp : String × Position =>
        finalPriceOf data sp * sp.2.quantity - sp.2.entryPrice * sp.2.quantity := by
    funext sp
    ring
  rw [hfun, sum_map_sub]
  unfold entryValue at hL
  linarith [hL]

/-- C10: the final cash after end-of-run liquidation equals the initial
capital plus the sum of pnl over all SELL trades (in exact arithmetic),
the final reported portfolio value is that final cash, and the reported
percent return equals totalPnL / initialCapital × 100 (up to the final
display rounding applied by the code). -/
theorem claim_c10_return_identity (cfg : BacktestConfig) (data : String → List Bar) :
    (runSim cfg data).cash = cfg.initialCapital + sumPnl (runBacktest cfg data).trades ∧
    (runBacktest cfg data).portfolioValue.getLast? = some ((runSim cfg data).cash) ∧
    (runBacktest cfg data).percentReturn =
      round2 (sumPnl (runBacktest cfg data).trades / cfg.initialCapital * 100) := by
  have h1 := runSim_cash_eq cfg data
  have htr : (runBacktest cfg data).trades = (runSim cfg data).trades := rfl
  refine ⟨by rw [htr]; exact h1, ?_, ?_⟩
  · show ((runSim cfg data).portfolioValues ++ [(runSim cfg data).cash]).getLast? = _
    exact List.getLast?_concat _
  · show round2 (((runSim cfg data).cash - cfg.initialCapital) / cfg.initialCapital * 100) = _
    rw [htr]
    have hd : (runSim cfg data).cash - cfg.initialCapital = sumPnl (runSim cfg data).trades := by
      linarith [h1]
    rw [hd]

theorem head?_append_some {α : Type} {l l2 : List α} {a : α}
    (h : l.head? = some a) : (l ++ l2).head? = some a := by
  cases l with
  | nil => simp at h
  | cons x tl =>
    simp at h
    simp [h]

theorem pvsHead_execBuy {st : SimState} {stock : String} {i : Nat} {current : Bar}
    {r : TradingRule} {a : ℚ} (h : st.portfolioValues.head? = some a) :
    (execBuy stock i current r st).portfolioValues.head? = some a := h

theorem pvsHead_stepStock {st : SimState} {buyRules sellRules : List TradingRule}
    {data : String → List Bar} {i : Nat} {stock : String} {a : ℚ}
    (h : st.portfolioValues.head? = some a) :
    (stepStock buyRules sellRules data i st stock).portfolioValues.head? = some a := by
  rcases stepStock_cases buyRules sellRules data i st stock with hc | ⟨cur, prev, _, _, hc⟩
  · rw [hc]; exact h
  · rw [hc]
    have hb : (buyPhase buyRules stock i cur
        ((cur.price - prev.price) / prev.price * 100)
        ((cur.volume - prev.volume) / prev.volume * 100) st).portfolioValues.head? = some a := by
      rcases buyPhase_cases buyRules stock i cur
          ((cur.price - prev.price) / prev.price * 100)
          ((cur.volume - prev.volume) / prev.volume * 100) st with hbb | ⟨_, r, _, hbb⟩
      · rw [hbb]; exact h
      · rw [hbb]; exact h
    rcases sellPhase_cases sellRules stock i cur
        (match lookupPos st.positions stock with
         | some p => (cur.price - p.entryPrice) / p.entryPrice * 100
         | none => 0)
        ((cur.volume - prev.volume) / prev.volume * 100)
        (buyPhase buyRules stock i cur
          ((cur.price - prev.price) / prev.price * 100)
          ((cur.volume - prev.volume) / prev.volume * 100) st) with hs | ⟨pos, r, _, _, hs⟩
    · rw [hs]; exact hb
    · rw [hs]; exact hb

theorem pvsHead_stepBar {st : SimState} {stocks : List String}
    {buyRules sellRules : List TradingRule} {data : String → List Bar}
    {maxLen : Nat} {endDate : String} {i : Nat} {a : ℚ}
    (h : st.portfolioValues.head? = some a) :
    (stepBar stocks buyRules sellRules data maxLen endDate i st).portfolioValues.head? = some a := by
  rw [stepBar, sampleStep]
  have hf : ((stocks.foldl (stepStock buyRules sellRules data i) st)).portfolioValues.head? =
      some a :=
    foldl_preserve (P := fun st : SimState => st.portfolioValues.head? = some a)
      (fun st x hst => pvsHead_stepStock hst) stocks st h
  split
  · exact head?_append_some hf
  · exact hf

theorem runLoop_pvs_head (cfg : BacktestConfig) (data : String → List Bar) :
    (runLoop cfg data).portfolioValues.head? = some cfg.initialCapital := by
  rw [runLoop]
  exact foldl_preserve (P := fun st : SimState => st.portfolioValues.head? = some cfg.initialCapital)
    (fun st i hst => pvsHead_stepBar hst) _ _ rfl

/-- C8: at every recorded PortfolioSnapshot the recorded equity equals
cash plus the sum of mark price times quantity over the open positions,
reconstructed independently (`equityOf` sums the marked values, while
the code accumulates them by a fold); moreover the first snapshot is the
initial capital (all-cash, no open positions) and the final snapshot is
the final cash after liquidation (again no open positions). -/
theorem claim_c8_equity_conservation (cfg : BacktestConfig) (data : String → List Bar)
    (i : Nat) (st : SimState) :
    portfolioValueAt data i st = equityOf data i st.cash st.positions ∧
    (runBacktest cfg data).portfolioValue.head? = some cfg.initialCapital ∧
    (runBacktest cfg data).portfolioValue.getLast? = some ((runSim cfg data).cash) := by
  refine ⟨?_, ?_, ?_⟩
  · rw [portfolioValueAt, equityOf]
    exact foldl_add_sum _ _ _
  · show ((runSim cfg data).portfolioValues ++ [(runSim cfg data).cash]).head? = _
    refine head?_append_some ?_
    rw [runSim, liquidate, liqGo_pvs]
    exact runLoop_pvs_head cfg data
  · show ((runSim cfg data).portfolioValues ++ [(runSim cfg data).cash]).getLast? = _
    exact List.getLast?_concat _

/-! ### Capital-gating invariant -/

theorem replayCash_snoc (init : ℚ) (ts : List Trade) (t : Trade) :
    replayCash init (ts ++ [t]) =
      (match t.decision with
       | Decision.BUY => replayCash init ts - t.price * t.quantity
       | Decision.SELL => replayCash init ts + t.price * t.quantity) := by
  rw [replayCash_append]
  rfl

theorem invCash_cash_nonneg {init : ℚ} {st : SimState} (h : InvCash init st) :
    0 ≤ st.cash := by
  have hn := h.prefixes st.trades.length
  rw [List.take_length] at hn
  rw [h.replay]
  exact hn

theorem tracePrefixes_snoc {init : ℚ} {ts : List Trade} {t : Trade}
    (hpre : ∀ n, 0 ≤ replayCash init (ts.take n))
    (hlast : 0 ≤ replayCash init (ts ++ [t])) :
    ∀ n, 0 ≤ replayCash init ((ts ++ [t]).take n) := by
  intro n
  rcases le_or_lt n ts.length with hle | hgt
  · rw [List.take_append_of_le_length hle]
    exact hpre n
  · rw [List.take_of_length_le (by simp; omega)]
    exact hlast

theorem traceGated_snoc {init : ℚ} {ts : List Trade} {t : Trade}
    (hgat : ∀ n t', ts[n]? = some t' → t'.decision = Decision.BUY →
      t'.price * t'.quantity ≤ replayCash init (ts.take n))
    (hnew : t.decision = Decision.BUY → t.price * t.quantity ≤ replayCash init ts) :
    ∀ n t', (ts ++ [t])[n]? = some t' → t'.decision = Decision.BUY →
      t'.price * t'.quantity ≤ replayCash init ((ts ++ [t]).take n) := by
  intro n t' hget hbuy
  rcases Nat.lt_or_ge n ts.length with hlt | hge
  · rw [List.getElem?_append_left hlt] at hget
    rw [List.take_append_of_le_length (le_of_lt hlt)]
    exact hgat n t' hget hbuy
  · rcases Nat.lt_or_ge n (ts.length + 1) with hlt1 | hge1
    · have hn : n = ts.length := by omega
      subst hn
      rw [List.getElem?_concat_length] at hget
      obtain rfl : t = t' := by simpa using hget
      rw [List.take_append_of_le_length (le_refl _), List.take_length]
      exact hnew hbuy
    · rw [List.getElem?_eq_none (by simp; omega)] at hget
      exact absurd hget (by simp)

theorem invCash_execBuy {init : ℚ} {st : SimState} {stock : String} {i : Nat}
    {current : Bar} {r : TradingRule} (h : InvCash init st)
    (hcost : current.price * r.quantity ≤ st.cash)
    (hq : 0 ≤ r.quantity) (hp : 0 ≤ current.price) :
    InvCash init (execBuy stock i current r st) := by
  have hrep : replayCash init ((execBuy stock i current r st).trades) =
      st.cash - current.price * r.quantity := by
    show replayCash init (st.trades ++ [_]) = _
    rw [replayCash_snoc]
    rw [← h.replay]
  refine ⟨hrep.symm, ?_, ?_, ?_, ?_⟩
  · refine tracePrefixes_snoc h.prefixes ?_
    show 0 ≤ replayCash init ((execBuy stock i current r st).trades)
    rw [hrep]
    linarith
  · refine traceGated_snoc h.gated ?_
    intro _
    show current.price * r.quantity ≤ replayCash init st.trades
    rw [← h.replay]
    exact hcost
  · intro sp hsp
    rcases List.mem_append.mp hsp with hsp | hsp
    · exact h.posWF sp hsp
    · simp at hsp
      subst hsp
      exact ⟨hp, hq⟩
  · exact h.pvNonneg

theorem invCash_execSell {init : ℚ} {st : SimState} {stock : String} {i : Nat}
    {current : Bar} {r : TradingRule} {pos : Position} (h : InvCash init st)
    (hl : lookupPos st.positions stock = some pos) (hp : 0 ≤ current.price) :
    InvCash init (execSell stock i current r pos st) := by
  have hwf := h.posWF (stock, pos) (lookupPos_mem hl)
  have hrep : replayCash init ((execSell stock i current r pos st).trades) =
      st.cash + current.price * pos.quantity := by
    show replayCash init (st.trades ++ [_]) = _
    rw [replayCash_snoc]
    rw [← h.replay]
  refine ⟨hrep.symm, ?_, ?_, ?_, ?_⟩
  · refine tracePrefixes_snoc h.prefixes ?_
    show 0 ≤ replayCash init ((execSell stock i current r pos st).trades)
    rw [hrep]
    have h0 := invCash_cash_nonneg h
    have : 0 ≤ current.price * pos.quantity := mul_nonneg hp hwf.2
    linarith
  · refine traceGated_snoc h.gated ?_
    intro hbuy
    exact absurd hbuy (by simp)
  · intro sp hsp
    exact h.posWF sp (mem_of_mem_erasePos hsp)
  · exact h.pvNonneg

theorem mem_rulesFor {r : TradingRule} {d : Decision} {rules : List TradingRule}
    (h : r ∈ rulesFor d rules) : r ∈ rules := by
  rw [rulesFor] at h
  exact (List.mem_filter.mp (List.mem_filter.mp h).1).1

theorem markPrice_nonneg {data : String → List Bar} {i : Nat} {s : String}
    (hdata : ∀ s b, b ∈ data s → 0 ≤ b.price) : 0 ≤ markPrice data i s := by
  rw [markPrice]
  rcases hb : (data s)[min i ((data s).length - 1)]? with _ | b
  · simp
  · exact hdata s b (List.getElem?_mem hb)

theorem finalPriceOf_nonneg {data : String → List Bar} {sp : String × Position}
    (hdata : ∀ s b, b ∈ data s → 0 ≤ b.price) (he : 0 ≤ sp.2.entryPrice) :
    0 ≤ finalPriceOf data sp := by
  rw [finalPriceOf]
  rcases hb : (data sp.1)[(data sp.1).length - 1]? with _ | b
  · exact he
  · by_cases hz : b.price = 0
    · simpa [hz] using he
    · simpa [hz] using hdata sp.1 b (List.getElem?_mem hb)

theorem invCash_buyPhase {init : ℚ} {st : SimState} {buyRules : List TradingRule}
    {stock : String} {i : Nat} {current : Bar} {priceChange volumeChange : ℚ}
    (h : InvCash init st) (hp : 0 ≤ current.price)
    (hq : ∀ r ∈ buyRules, 0 ≤ r.quantity) :
    InvCash init (buyPhase buyRules stock i current priceChange volumeChange st) := by
  rcases buyPhase_cases buyRules stock i current priceChange volumeChange st with
    hb | ⟨_, r, hscan, hb⟩
  · rw [hb]; exact h
  · rw [hb]
    obtain ⟨hmem, _, hcost⟩ := scanBuy_spec hscan
    exact invCash_execBuy h hcost (hq r hmem) hp

theorem invCash_sellPhase {init : ℚ} {st : SimState} {sellRules : List TradingRule}
    {stock : String} {i : Nat} {current : Bar} {positionPnLPercent volumeChange : ℚ}
    (h : InvCash init st) (hp : 0 ≤ current.price) :
    InvCash init (sellPhase sellRules stock i current positionPnLPercent volumeChange st) := by
  rcases sellPhase_cases sellRules stock i current positionPnLPercent volumeChange st with
    hs | ⟨pos, r, hl, _, hs⟩
  · rw [hs]; exact h
  · rw [hs]; exact invCash_execSell h hl hp

theorem invCash_stepStock {init : ℚ} {st : SimState} {buyRules sellRules : List TradingRule}
    {data : String → List Bar} {i : Nat} {stock : String} (h : InvCash init st)
    (hdata : ∀ s b, b ∈ data s → 0 ≤ b.price)
    (hq : ∀ r ∈ buyRules, 0 ≤ r.quantity) :
    InvCash init (stepStock buyRules sellRules data i st stock) := by
  rcases stepStock_cases buyRules sellRules data i st stock with hc | ⟨cur, prev, hcur, _, hc⟩
  · rw [hc]; exact h
  · rw [hc]
    have hp : 0 ≤ cur.price := hdata stock cur (List.getElem?_mem hcur)
    exact invCash_sellPhase (invCash_buyPhase h hp hq) hp

theorem invCash_sampleStep {init : ℚ} {st : SimState} {stocks : List String}
    {data : String → List Bar} {maxLen : Nat} {endDate : String} {i : Nat}
    (h : InvCash init st) (hdata : ∀ s b, b ∈ data s → 0 ≤ b.price) :
    InvCash init (sampleStep stocks data maxLen endDate i st) := by
  rw [sampleStep]
  split
  · refine ⟨h.replay, h.prefixes, h.gated, h.posWF, ?_⟩
    intro v hv
    rcases List.mem_append.mp hv with hv | hv
    · exact h.pvNonneg v hv
    · simp at hv
      subst hv
      rw [portfolioValueAt, foldl_add_sum]
      have hc := invCash_cash_nonneg h
      have hs : 0 ≤ (st.positions.map
          (fun sp => markPrice data i sp.1 * sp.2.quantity)).sum := by
        refine List.sum_nonneg ?_
        intro x hx
        obtain ⟨sp, hsp, hxe⟩ := List.mem_map.mp hx
        subst hxe
        exact mul_nonneg (markPrice_nonneg hdata) ((h.posWF sp hsp).2)
      linarith
  · exact h

theorem invCash_stepBar {init : ℚ} {st : SimState} {stocks : List String}
    {buyRules sellRules : List TradingRule} {data : String → List Bar}
    {maxLen : Nat} {endDate : String} {i : Nat} (h : InvCash init st)
    (hdata : ∀ s b, b ∈ data s → 0 ≤ b.price)
    (hq : ∀ r ∈ buyRules, 0 ≤ r.quantity) :
    InvCash init (stepBar stocks buyRules sellRules data maxLen endDate i st) := by
  rw [stepBar]
  refine invCash_sampleStep ?_ hdata
  exact foldl_preserve (P := fun st : SimState => InvCash init st)
    (fun st x hst => invCash_stepStock hst hdata hq) stocks st h

theorem invCash_initState (cfg : BacktestConfig) (h0 : 0 ≤ cfg.initialCapital) :
    InvCash cfg.initialCapital (initState cfg) := by
  refine ⟨rfl, ?_, ?_, ?_, ?_⟩
  · intro n
    show 0 ≤ replayCash cfg.initialCapital (List.take n [])
    simp [replayCash]
    exact h0
  · intro n t hget
    simp [initState] at hget
  · intro sp hsp
    simp [initState] at hsp
  · intro v hv
    simp [initState] at hv
    subst hv
    exact h0

theorem invCash_runLoop (cfg : BacktestConfig) (data : String → List Bar)
    (h0 : 0 ≤ cfg.initialCapital)
    (hdata : ∀ s b, b ∈ data s → 0 ≤ b.price)
    (hq : ∀ r ∈ cfg.rules, 0 ≤ r.quantity) :
    InvCash cfg.initialCapital (runLoop cfg data) := by
  rw [runLoop]
  refine foldl_preserve (P := fun st : SimState => InvCash cfg.initialCapital st)
    (fun st i hst => invCash_stepBar hst hdata ?_) _ _ (invCash_initState cfg h0)
  intro r hr
  exact hq r (mem_rulesFor hr)

theorem invCash_liqGo {init : ℚ} {data : String → List Bar} {endD : String} :
    ∀ (l : List (String × Position)) (st : SimState),
      (∀ sp ∈ l, 0 ≤ finalPriceOf data sp ∧ 0 ≤ sp.2.quantity) →
      InvCash init st → InvCash init (liqGo data endD l st)
  | [], st, _, h => h
  | hd :: tl, st, hwf, h => by
    show InvCash init (liqGo data endD tl (liquidateOne data endD st hd))
    refine invCash_liqGo tl (liquidateOne data endD st hd)
      (fun sp hsp => hwf sp (List.mem_cons_of_mem _ hsp)) ?_
    have hw := hwf hd (List.mem_cons_self _ _)
    have hrep : replayCash init ((liquidateOne data endD st hd).trades) =
        st.cash + finalPriceOf data hd * hd.2.quantity := by
      show replayCash init (st.trades ++ [_]) = _
      rw [replayCash_snoc]
      rw [← h.replay]
      rfl
    refine ⟨hrep.symm, ?_, ?_, h.posWF, h.pvNonneg⟩
    · refine tracePrefixes_snoc h.prefixes ?_
      show 0 ≤ replayCash init ((liquidateOne data endD st hd).trades)
      rw [hrep]
      have h0 := invCash_cash_nonneg h
      have : 0 ≤ finalPriceOf data hd * hd.2.quantity := mul_nonneg hw.1 hw.2
      linarith
    · refine traceGated_snoc h.gated ?_
      intro hbuy
      exact absurd hbuy (by simp [liqTrade])

theorem invCash_runSim (cfg : BacktestConfig) (data : String → List Bar)
    (h0 : 0 ≤ cfg.initialCapital)
    (hdata : ∀ s b, b ∈ data s → 0 ≤ b.price)
    (hq : ∀ r ∈ cfg.rules, 0 ≤ r.quantity) :
    InvCash cfg.initialCapital (runSim cfg data) := by
  have hL := invCash_runLoop cfg data h0 hdata hq
  rw [runSim, liquidate]
  refine invCash_liqGo _ _ ?_ hL
  intro sp hsp
  have hwf := hL.posWF sp hsp
  exact ⟨finalPriceOf_nonneg hdata hwf.1, hwf.2⟩

/-! ### Drawdown and rounding bounds -/

theorem le_ite_gt (a b : ℚ) : b ≤ if a > b then a else b := by
  split
  · next h => exact le_of_lt h
  · exact le_refl b

theorem ddFold_acc_le : ∀ (vals : List ℚ) (peak acc : ℚ),
    acc ≤ (vals.foldl ddStep (peak, acc)).2
  | [], _, acc => le_refl acc
  | v :: vs, peak, acc =>
    le_trans (le_ite_gt _ acc)
      (ddFold_acc_le vs (ddStep (peak, acc) v).1 (ddStep (peak, acc) v).2)

theorem maxDrawdownOf_nonneg (init : ℚ) (vals : List ℚ) :
    0 ≤ maxDrawdownOf init vals :=
  ddFold_acc_le vals init 0

theorem ddStep_bounds {peak acc v : ℚ} (hpeak : 0 < peak) (hacc0 : 0 ≤ acc)
    (hacc : acc ≤ 100) (hv : 0 ≤ v) :
    0 < (ddStep (peak, acc) v).1 ∧ 0 ≤ (ddStep (peak, acc) v).2 ∧
      (ddStep (peak, acc) v).2 ≤ 100 := by
  have hkey : ∀ p : ℚ, 0 < p → v ≤ p →
      0 ≤ (p - v) / p * 100 ∧ (p - v) / p * 100 ≤ 100 := by
    intro p hp hvp
    constructor
    · have := div_nonneg (by linarith : (0:ℚ) ≤ p - v) (le_of_lt hp)
      linarith
    · have h1 : (p - v) / p ≤ 1 := (div_le_one hp).mpr (by linarith)
      linarith
  by_cases hvp : v > peak
  · have hk := hkey v (by linarith) (le_refl v)
    refine ⟨by simp only [ddStep, if_pos hvp]; linarith, ?_, ?_⟩
    · show 0 ≤ if _ > acc then _ else acc
      simp only [ddStep, if_pos hvp]
      by_cases hgt : (v - v) / v * 100 > acc
      · rw [if_pos hgt]; exact hk.1
      · rw [if_neg hgt]; exact hacc0
    · show (if _ > acc then _ else acc) ≤ 100
      simp only [ddStep, if_pos hvp]
      by_cases hgt : (v - v) / v * 100 > acc
      · rw [if_pos hgt]; exact hk.2
      · rw [if_neg hgt]; exact hacc
  · have hk := hkey peak hpeak (by linarith)
    refine ⟨by simp only [ddStep, if_neg hvp]; exact hpeak, ?_, ?_⟩
    · show 0 ≤ if _ > acc then _ else acc
      simp only [ddStep, if_neg hvp]
      by_cases hgt : (peak - v) / peak * 100 > acc
      · rw [if_pos hgt]; exact hk.1
      · rw [if_neg hgt]; exact hacc0
    · show (if _ > acc then _ else acc) ≤ 100
      simp only [ddStep, if_neg hvp]
      by_cases hgt : (peak - v) / peak * 100 > acc
      · rw [if_pos hgt]; exact hk.2
      · rw [if_neg hgt]; exact hacc

theorem ddFold_bounds : ∀ (vals : List ℚ) (peak acc : ℚ), 0 < peak → 0 ≤ acc →
    acc ≤ 100 → (∀ v ∈ vals, 0 ≤ v) → (vals.foldl ddStep (peak, acc)).2 ≤ 100
  | [], _, _, _, _, hacc, _ => hacc
  | v :: vs, peak, acc, hpeak, hacc0, hacc, hvals => by
    obtain ⟨h1, h2, h3⟩ := ddStep_bounds hpeak hacc0 hacc
      (hvals v (List.mem_cons_self _ _))
    have hrec := ddFold_bounds vs (ddStep (peak, acc) v).1 (ddStep (peak, acc) v).2
      h1 h2 h3 (fun w hw => hvals w (List.mem_cons_of_mem _ hw))
    exact hrec

theorem maxDrawdownOf_le_100 {init : ℚ} {vals : List ℚ} (h0 : 0 < init)
    (hvals : ∀ v ∈ vals, 0 ≤ v) : maxDrawdownOf init vals ≤ 100 :=
  ddFold_bounds vals init 0 h0 (le_refl 0) (by norm_num) hvals

theorem round2_nonneg {q : ℚ} (h : 0 ≤ q) : 0 ≤ round2 q := by
  rw [round2]
  have : (0:ℤ) ≤ ⌊q * 100 + 1 / 2⌋ := Int.floor_nonneg.mpr (by linarith)
  positivity

theorem round2_le_100 {q : ℚ} (h : q ≤ 100) : round2 q ≤ 100 := by
  rw [round2]
  have h1 : (⌊q * 100 + 1 / 2⌋ : ℤ) ≤ ⌊(10000 : ℚ) + 1 / 2⌋ := by
    apply Int.floor_le_floor
    linarith
  have h2 : (⌊(10000 : ℚ) + 1 / 2⌋ : ℤ) = 10000 := by
    rw [Int.floor_eq_iff]
    norm_num
  rw [h2] at h1
  have h3 : ((⌊q * 100 + 1 / 2⌋ : ℤ) : ℚ) ≤ 10000 := by
    exact_mod_cast h1
  linarith

theorem data86_price_pos : ∀ s b, b ∈ data86 s → 0 < b.price := by
  intro s b hb
  rw [data86] at hb
  by_cases hs : s = "XYZ"
  · rw [if_pos hs] at hb
    simp only [bars86, List.mem_cons, List.not_mem_nil, or_false] at hb
    rcases hb with h | h | h | h | h <;> subst h <;> decide
  · rw [if_neg hs] at hb
    exact absurd hb (List.not_mem_nil b)

theorem cfg86_qty_pos : ∀ r ∈ cfg86.rules, 0 < r.quantity := by
  intro r hr
  simp only [cfg86, List.mem_cons, List.not_mem_nil, or_false] at hr
  rcases hr with h | h <;> subst h <;> decide

/-- C4: no BUY trade is ever recorded whose cost exceeds the cash
balance immediately prior to that trade, and cash never goes below zero:
replaying the cash ledger over the trade log (which is exactly how the
simulation mutates cash — the third conjunct), every prefix balance is
non-negative and every BUY trade's `price × quantity` is at most the
balance just before it. -/
theorem claim_c4_capital_gating (cfg : BacktestConfig) (data : String → List Bar)
    (h0 : 0 ≤ cfg.initialCapital)
    (hdata : ∀ s b, b ∈ data s → 0 ≤ b.price)
    (hq : ∀ r ∈ cfg.rules, 0 ≤ r.quantity) :
    (∀ n t, (runBacktest cfg data).trades[n]? = some t → t.decision = Decision.BUY →
      t.price * t.quantity ≤
        replayCash cfg.initialCapital ((runBacktest cfg data).trades.take n)) ∧
    (∀ n, 0 ≤ replayCash cfg.initialCapital ((runBacktest cfg data).trades.take n)) ∧
    (runSim cfg data).cash = replayCash cfg.initialCapital (runBacktest cfg data).trades := by
  have h := invCash_runSim cfg data h0 hdata hq
  exact ⟨h.gated, h.prefixes, h.replay⟩

/-- C4 witness at the §8.6 scenario. -/
theorem claim_c4_capital_gating_witness :
    (0 ≤ cfg86.initialCapital) ∧
    ((∀ n t, (runBacktest cfg86 data86).trades[n]? = some t → t.decision = Decision.BUY →
      t.price * t.quantity ≤
        replayCash cfg86.initialCapital ((runBacktest cfg86 data86).trades.take n)) ∧
    (∀ n, 0 ≤ replayCash cfg86.initialCapital ((runBacktest cfg86 data86).trades.take n)) ∧
    (runSim cfg86 data86).cash =
      replayCash cfg86.initialCapital (runBacktest cfg86 data86).trades) :=
  ⟨by decide, claim_c4_capital_gating cfg86 data86 (by decide)
    (fun s b hb => le_of_lt (data86_price_pos s b hb))
    (fun r hr => le_of_lt (cfg86_qty_pos r hr))⟩

/-- C9: for a run with positive initial capital, positive prices in the
embedded series and positive rule quantities, the reported maxDrawdown
lies between 0 and 100 inclusive. -/
theorem claim_c9_drawdown_bounds (cfg : BacktestConfig) (data : String → List Bar)
    (h0 : 0 < cfg.initialCapital)
    (hdata : ∀ s b, b ∈ data s → 0 < b.price)
    (hq : ∀ r ∈ cfg.rules, 0 < r.quantity) :
    0 ≤ (runBacktest cfg data).maxDrawdown ∧ (runBacktest cfg data).maxDrawdown ≤ 100 := by
  have h := invCash_runSim cfg data (le_of_lt h0)
    (fun s b hb => le_of_lt (hdata s b hb)) (fun r hr => le_of_lt (hq r hr))
  have hmd : (runBacktest cfg data).maxDrawdown =
      round2 (maxDrawdownOf cfg.initialCapital (runSim cfg data).portfolioValues) := rfl
  rw [hmd]
  constructor
  · exact round2_nonneg (maxDrawdownOf_nonneg _ _)
  · exact round2_le_100 (maxDrawdownOf_le_100 h0 h.pvNonneg)

/-- C9 witness at the §8.6 scenario. -/
theorem claim_c9_drawdown_bounds_witness :
    (0 < cfg86.initialCapital) ∧
    (0 ≤ (runBacktest cfg86 data86).maxDrawdown ∧
      (runBacktest cfg86 data86).maxDrawdown ≤ 100) :=
  ⟨by decide, claim_c9_drawdown_bounds cfg86 data86 (by decide)
    data86_price_pos cfg86_qty_pos⟩

/-- C5 amended: the reported maxDrawdown is the running-peak drawdown
maximum over the equity curve excluding its final point (the final cash
snapshot is appended after the metric is computed), rounded for display,
and it is always non-negative. -/
theorem claim_c5_amended (cfg : BacktestConfig) (data : String → List Bar) :
    (runBacktest cfg data).maxDrawdown =
      round2 (maxDrawdownOf cfg.initialCapital
        ((runBacktest cfg data).portfolioValue.dropLast)) ∧
    0 ≤ (runBacktest cfg data).maxDrawdown := by
  have hpv : (runBacktest cfg data).portfolioValue =
      (runSim cfg data).portfolioValues ++ [(runSim cfg data).cash] := rfl
  constructor
  · rw [hpv, List.dropLast_concat]
    rfl
  · exact round2_nonneg (maxDrawdownOf_nonneg _ _)

/-! ### At most one BUY and one SELL per instrument per bar -/

theorem tradesFor_stepStock_of_ne {buyRules sellRules : List TradingRule}
    {data : String → List Bar} {i : Nat} {st : SimState} {stock s : String}
    (h : ¬ stock = s) :
    tradesFor s (stepStock buyRules sellRules data i st stock).trades =
      tradesFor s st.trades := by
  rcases stepStock_shape buyRules sellRules data i st stock with
    h0 | ⟨t, ht, h1⟩ | ⟨t1, t2, ht1, ht2, _, _, h2⟩
  · rw [h0]
  · rw [h1, tradesFor_append]
    simp [tradesFor, ht, h]
  · rw [h2, tradesFor_append]
    simp [tradesFor, ht1, ht2, h]

theorem foldl_stepStock_tradesFor_not_mem {buyRules sellRules : List TradingRule}
    {data : String → List Bar} {i : Nat} :
    ∀ (stocks : List String) (st : SimState) (s : String), s ∉ stocks →
      tradesFor s ((stocks.foldl (stepStock buyRules sellRules data i) st)).trades =
        tradesFor s st.trades
  | [], _, _, _ => rfl
  | x :: xs, st, s, hmem => by
    show tradesFor s ((xs.foldl (stepStock buyRules sellRules data i)
      (stepStock buyRules sellRules data i st x))).trades = _
    rw [foldl_stepStock_tradesFor_not_mem xs _ s
      (fun hc => hmem (List.mem_cons_of_mem _ hc))]
    exact tradesFor_stepStock_of_ne
      (fun he => hmem (by rw [← he]; exact List.mem_cons_self x xs))

theorem foldl_stepStock_tradesFor_shape {buyRules sellRules : List TradingRule}
    {data : String → List Bar} {i : Nat} :
    ∀ (stocks : List String) (st : SimState) (s : String), stocks.Nodup →
      (tradesFor s ((stocks.foldl (stepStock buyRules sellRules data i) st)).trades =
        tradesFor s st.trades) ∨
      (∃ t, t.stock = s ∧
        tradesFor s ((stocks.foldl (stepStock buyRules sellRules data i) st)).trades =
          tradesFor s st.trades ++ [t]) ∨
      (∃ t1 t2, t1.stock = s ∧ t2.stock = s ∧
        t1.decision = Decision.BUY ∧ t2.decision = Decision.SELL ∧
        tradesFor s ((stocks.foldl (stepStock buyRules sellRules data i) st)).trades =
          tradesFor s st.trades ++ [t1, t2])
  | [], _, _, _ => Or.inl rfl
  | x :: xs, st, s, hnd => by
    rw [List.nodup_cons] at hnd
    rw [List.foldl_cons]
    by_cases hxs : x = s
    · subst hxs
      have hrest := @foldl_stepStock_tradesFor_not_mem buyRules sellRules data i xs
        (stepStock buyRules sellRules data i st x) x hnd.1
      rcases stepStock_shape buyRules sellRules data i st x with
        h0 | ⟨t, ht, h1⟩ | ⟨t1, t2, ht1, ht2, hd1, hd2, h2⟩
      · exact Or.inl (by rw [hrest, h0])
      · refine Or.inr (Or.inl ⟨t, ht, ?_⟩)
        rw [hrest, h1, tradesFor_append]
        simp [tradesFor, ht]
      · refine Or.inr (Or.inr ⟨t1, t2, ht1, ht2, hd1, hd2, ?_⟩)
        rw [hrest, h2, tradesFor_append]
        simp [tradesFor, ht1, ht2]
    · have hstep := @tradesFor_stepStock_of_ne buyRules sellRules data i st x s hxs
      rcases foldl_stepStock_tradesFor_shape xs
        (stepStock buyRules sellRules data i st x) s hnd.2 with
        h0 | ⟨t, ht, h1⟩ | ⟨t1, t2, ht1, ht2, hd1, hd2, h2⟩
      · exact Or.inl (by rw [h0, hstep])
      · exact Or.inr (Or.inl ⟨t, ht, by rw [h1, hstep]⟩)
      · exact Or.inr (Or.inr ⟨t1, t2, ht1, ht2, hd1, hd2, by rw [h2, hstep]⟩)

/-- C2 amended: per instrument and per bar, at most one BUY and at most
one SELL are recorded — the trades a bar appends for an instrument (when
the configured instrument list has no duplicates) are nothing, a single
trade, or a BUY followed by a SELL; a SELL can follow a BUY on the same
bar (e.g. a volume-triggered SELL after a volume-triggered BUY), so "at
most one trade per instrument per bar" does not hold, but "at most one
per side, BUY before SELL" does. -/
theorem claim_c2_amended (stocks : List String) (buyRules sellRules : List TradingRule)
    (data : String → List Bar) (maxLen : Nat) (endDate : String) (i : Nat)
    (st : SimState) (s : String) (hnd : stocks.Nodup) :
    (tradesFor s (stepBar stocks buyRules sellRules data maxLen endDate i st).trades =
      tradesFor s st.trades) ∨
    (∃ t, t.stock = s ∧
      tradesFor s (stepBar stocks buyRules sellRules data maxLen endDate i st).trades =
        tradesFor s st.trades ++ [t]) ∨
    (∃ t1 t2, t1.stock = s ∧ t2.stock = s ∧
      t1.decision = Decision.BUY ∧ t2.decision = Decision.SELL ∧
      tradesFor s (stepBar stocks buyRules sellRules data maxLen endDate i st).trades =
        tradesFor s st.trades ++ [t1, t2]) := by
  have hsample : (stepBar stocks buyRules sellRules data maxLen endDate i st).trades =
      ((stocks.foldl (stepStock buyRules sellRules data i) st)).trades := by
    rw [stepBar, sampleStep]
    split
    · rfl
    · rfl
  rw [hsample]
  exact foldl_stepStock_tradesFor_shape stocks st s hnd

/-- C2 amended witness: the first bar of the §8.6 scenario. -/
theorem claim_c2_amended_witness :
    (["XYZ"] : List String).Nodup ∧
    ((tradesFor "XYZ" (stepBar ["XYZ"] [ruleBuy3] [ruleSell2] data86 5 "e" 1
        (initState cfg86)).trades = tradesFor "XYZ" (initState cfg86).trades) ∨
    (∃ t, t.stock = "XYZ" ∧
      tradesFor "XYZ" (stepBar ["XYZ"] [ruleBuy3] [ruleSell2] data86 5 "e" 1
        (initState cfg86)).trades = tradesFor "XYZ" (initState cfg86).trades ++ [t]) ∨
    (∃ t1 t2, t1.stock = "XYZ" ∧ t2.stock = "XYZ" ∧
      t1.decision = Decision.BUY ∧ t2.decision = Decision.SELL ∧
      tradesFor "XYZ" (stepBar ["XYZ"] [ruleBuy3] [ruleSell2] data86 5 "e" 1
        (initState cfg86)).trades = tradesFor "XYZ" (initState cfg86).trades ++ [t1, t2])) :=
  ⟨by decide, claim_c2_amended ["XYZ"] [ruleBuy3] [ruleSell2] data86 5 "e" 1
    (initState cfg86) "XYZ" (by decide)⟩

/-- C7 amended: when a BUY rule fires on a bar but cash is insufficient
for its cost, that rule records no trade; evaluation proceeds to the
NEXT BUY rule in declaration order (not to the next bar), so the
executed BUY, if any, is the first rule in declaration order that both
fires and is affordable; if no such rule exists the instrument stays
FLAT on that bar. -/
theorem claim_c7_amended (cash price priceChange volumeChange : ℚ)
    (rules : List TradingRule) :
    scanBuy cash price priceChange volumeChange rules =
      rules.find? (fun r => buyTriggered r priceChange volumeChange &&
        decide (price * r.quantity ≤ cash)) := by
  induction rules with
  | nil => rfl
  | cons hd tl ih =>
    rw [scanBuy]
    by_cases ht : buyTriggered hd priceChange volumeChange
    · by_cases ha : cash ≥ price * hd.quantity
      · rw [if_pos ht, if_pos ha, List.find?_cons_of_pos _ (by simp [ht]; exact ha)]
      · rw [if_pos ht, if_neg ha, ih, List.find?_cons_of_neg _
          (by simp [ht]; exact lt_of_not_ge ha)]
    · rw [if_neg ht, ih, List.find?_cons_of_neg _ (by simp [ht])]

/-- C1: in the §8.6 scenario — one instrument, capital 100000, a BUY rule
on a ≥3% price drop (quantity 10), a SELL rule on a ≥2% position gain,
prices 100, 97, 101, 95, 99 — the run produces exactly the four trades
BUY@97, SELL@101 (pnl 40), BUY@95, SELL@99 (pnl 40) and reports
totalTrades = 4, winningTrades = 2, losingTrades = 0, totalPnL = 80,
percentReturn = 0.08 and maxDrawdown = 0. -/
theorem claim_c1_concrete_scenario :
    post cfg86 data86 = .ok (runBacktest cfg86 data86) ∧
    (runBacktest cfg86 data86).totalTrades = 4 ∧
    (runBacktest cfg86 data86).trades.map (fun t => (t.decision, t.price, t.pnl)) =
      [(.BUY, 97, none), (.SELL, 101, some 40), (.BUY, 95, none), (.SELL, 99, some 40)] ∧
    (runBacktest cfg86 data86).winningTrades = 2 ∧
    (runBacktest cfg86 data86).losingTrades = 0 ∧
    (runBacktest cfg86 data86).totalPnL = 80 ∧
    (runBacktest cfg86 data86).percentReturn = 8 / 100 ∧
    (runBacktest cfg86 data86).maxDrawdown = 0 := by
  exact ⟨rfl, by decide⟩

/-- C2 counterexample: with a volume-triggered BUY rule and a
volume-triggered SELL rule, the bar with timestamp "t1" records two
trades (a BUY and then a SELL) for instrument "A" — refuting "at most
one trade per instrument per bar". The SELL fires on the same bar
because the position P&L percent used by the SELL block was computed
before the BUY, and volume-metric SELL rules compare the volume change
anyway. -/
theorem claim_c2_counterexample :
    ((runBacktest cfgVol dataVol).trades.filter
        (fun t => decide (t.stock = "A") && decide (t.timestamp = "t1"))).length = 2 ∧
    (runBacktest cfgVol dataVol).trades.map (fun t => (t.decision, t.timestamp)) =
      [(.BUY, "t1"), (.SELL, "t1")] := by
  decide

/-- C3 counterexample: a SELL-side rule with VOLUME metric (`vol-exit`,
volume increase ≥ 5%) fires while the held position's P&L percent is
−100/97 ≈ −1.03%, recording a losing SELL — although the firing test the
claim asserts (position P&L percent against the threshold) is false at
that bar. The code compares bar-over-bar volume change for VOLUME-metric
SELL rules, not position P&L. -/
theorem claim_c3_counterexample :
    (runBacktest cfgVolExit dataVolExit).trades.map
        (fun t => (t.decision, t.price, t.pnl, t.ruleTriggered)) =
      [(.BUY, 97, none, "px-buy"), (.SELL, 96, some (-10), "vol-exit")] ∧
    sellFiresPnlOnly ruleVolExit ((96 - 97) / 97 * 100) = false ∧
    sellTriggered ruleVolExit ((96 - 97) / 97 * 100) ((2000 - 1000) / 1000 * 100) = true := by
  decide

/-- C3 amended: an enabled SELL-side rule evaluated while holding
compares the position's P&L percent against its threshold only when its
metric is PRICE; when its metric is VOLUME it compares the bar-over-bar
volume percent change instead. Equivalently, `sellTriggered` agrees with
the claim's position-P&L test applied to the P&L percent for PRICE
metrics and to the volume change for VOLUME metrics. -/
theorem claim_c3_amended (r : TradingRule) (positionPnLPercent volumeChange : ℚ) :
    sellTriggered r positionPnLPercent volumeChange =
      sellFiresPnlOnly r (if metricIsPrice r then positionPnLPercent else volumeChange) := by
  cases h : r.changeType <;>
    simp [sellTriggered, sellFiresPnlOnly, metricIsPrice, h]

/-- C5 counterexample: on the late-crash series the reported maxDrawdown
is 0, while the running-peak drawdown maximum over every point of the
reported equity curve (including the mandatory final snapshot) is 0.47%:
the code computes the metric before appending the final cash snapshot,
so the final snapshot is not included. -/
theorem claim_c5_counterexample :
    (runBacktest cfgLate dataLate).maxDrawdown = 0 ∧
    round2 (maxDrawdownAllSnapshots cfgLate.initialCapital (runBacktest cfgLate dataLate)) =
      47 / 100 ∧
    (runBacktest cfgLate dataLate).maxDrawdown ≠
      round2 (maxDrawdownAllSnapshots cfgLate.initialCapital (runBacktest cfgLate dataLate)) := by
  set_option maxRecDepth 1000000 in decide

/-- C7 counterexample: with rules `big-buy` (triggered, cost 97000 >
cash 100) declared before `small-buy` (triggered, cost 97 ≤ cash), the
unaffordable fire does not end the bar's evaluation: `small-buy` opens a
position on that very bar — refuting "no other BUY rule can open a
position for that instrument on that same bar". -/
theorem claim_c7_counterexample :
    buyTriggered ruleBigBuy ((97 - 100) / 100 * 100) 0 = true ∧
    cfgSkip.initialCapital < 97 * ruleBigBuy.quantity ∧
    (runBacktest cfgSkip dataSkip).trades.map
        (fun t => (t.decision, t.price, t.quantity, t.ruleTriggered, t.timestamp)) =
      [(.BUY, 97, 1, "small-buy", "t1"), (.SELL, 97, 1, "End of Backtest", "e")] := by
  decide

end SystematicTrader
